import Mathlib

/-!
# VibeSnek simulation core: a shallow embedding

This file embeds the simulation core of the VibeSnek multi-player snake
game (TypeScript) in Lean 4 and proves properties of its operations.

Conventions of the embedding:
* TypeScript `number` values used as tile coordinates are `Int`; times,
  speeds and accumulators (milliseconds, tiles/second) are `ℚ`.
* `performance.now()` is modelled by an explicit `now : ℚ` argument
  threaded to every operation that reads the wall clock.
* `Math.random()` draws are modelled by explicit oracle arguments
  (candidate position lists, fallback indices, colors).
* A TypeScript `Map` is modelled by an association list in insertion
  order; `Map.set` replaces in place or appends, `Map.delete` filters.
* Constructor-injected callbacks are modelled by returned data: an
  operation that would invoke a callback returns the payload it would
  have passed, and the caller (the orchestrator embedding) performs the
  corresponding action, exactly as the wired callbacks do.
* Rendering-only animation state (segment `prevX`/`prevY` interpolation
  mirrors, the gray block's `pulsePhase`, the apple's spawn-progress
  getter) is carried or omitted only where it cannot influence any
  simulation observable; all lifecycle timers that gate game logic
  (apple spawn animation, block conversion window) are embedded.
-/

namespace VibeSnek

/-! ## Grid primitives and constants (src/utils/constants.ts) -/

inductive Direction
  | up
  | down
  | left
  | right
  deriving DecidableEq, Repr

structure Position where
  x : Int
  y : Int
  deriving DecidableEq, Repr

inductive AppleColor
  | red
  | green
  | blue
  | orange
  | purple
  deriving DecidableEq, Repr

def MIN_APPLES : Nat := 5

def STARTING_SNAKE_LENGTH : Nat := 3

def TAIL_SHED_THRESHOLD : Nat := 20

def TAIL_SHED_REMAINING : Nat := 5

def EFFECT_DURATION : ℚ := 10000

def PURPLE_APPLE_SPAWN_COUNT : Nat := 10

/-- `opposites` table from `Snake.setDirection`. -/
def Direction.opposite : Direction → Direction
  | .up => .down
  | .down => .up
  | .left => .right
  | .right => .left

/-- `directionDeltas` table from `Snake.move` (and `Projectile.move`,
`ProjectileManager.spawnFromSnake`, which use the same table). -/
def Direction.delta : Direction → Position
  | .up => ⟨0, -1⟩
  | .down => ⟨0, 1⟩
  | .left => ⟨-1, 0⟩
  | .right => ⟨1, 0⟩

/-- `Snake.wrapCoordinate`: one-step wraparound used for snake heads. -/
def wrapCoordinate (boardSize c : Int) : Int :=
  if c < 0 then boardSize - 1
  else if boardSize ≤ c then 0
  else c

/-! ## Association-list model of the JS `Map` -/

/-- `Map.get`: value stored under `k`, if any. -/
def mapGet [DecidableEq κ] (k : κ) (m : List (κ × α)) : Option α :=
  (m.find? (fun e => decide (e.1 = k))).map (·.2)

/-- `Map.has`. -/
def mapHas [DecidableEq κ] (k : κ) (m : List (κ × α)) : Bool :=
  (mapGet k m).isSome

/-- `Map.delete`: removes the entry under `k`. -/
def mapDelete [DecidableEq κ] (k : κ) (m : List (κ × α)) : List (κ × α) :=
  m.filter (fun e => !decide (e.1 = k))

/-- `Map.set`: replaces in place if present, else appends (JS insertion
order semantics). -/
def mapSet [DecidableEq κ] (k : κ) (v : α) (m : List (κ × α)) : List (κ × α) :=
  if m.any (fun e => decide (e.1 = k)) then
    m.map (fun e => if e.1 = k then (k, v) else e)
  else m ++ [(k, v)]

/-! ## Snake (src/entities/Snake.ts) -/

/-- One body segment.  The source also stores `prevX`/`prevY` for render
interpolation; they are carried here as `prev`. -/
structure SnakeSegment where
  pos : Position
  prev : Position
  deriving DecidableEq, Repr

inductive SnakeState
  | alive
  | dead
  | spectating
  deriving DecidableEq, Repr

structure ActiveEffect where
  type : AppleColor
  startTime : ℚ
  duration : ℚ
  deriving DecidableEq, Repr

structure ComboStreak where
  color : Option AppleColor
  count : Nat
  deriving DecidableEq, Repr

structure Snake where
  playerId : Nat
  state : SnakeState
  segments : List SnakeSegment
  direction : Direction
  queuedDirection : Option Direction
  boardSize : Int
  baseSpeed : ℚ
  speedModifier : ℚ
  moveAccumulator : ℚ
  activeEffects : List (AppleColor × ActiveEffect)
  combo : ComboStreak
  deriving DecidableEq, Repr

def Snake.isAlive (s : Snake) : Bool :=
  s.state == .alive

/-- `Snake.getHead`.  The source indexes `segments[0]`; a snake always
has at least one segment, and the `(0,0)` default is never reached. -/
def Snake.getHead (s : Snake) : Position :=
  match s.segments with
  | [] => ⟨0, 0⟩
  | seg :: _ => seg.pos

def Snake.getSpeed (s : Snake) : ℚ :=
  s.baseSpeed * s.speedModifier

def Snake.setDirection (s : Snake) (newDirection : Direction) : Snake :=
  if !s.isAlive then s
  else if s.direction.opposite = newDirection then s
  else { s with queuedDirection := some newDirection }

/-- `Snake.move` (private): consume the queued direction, record the
previous positions, shift the body tail-to-head and advance the head
with wraparound. -/
def Snake.move (s : Snake) : Snake :=
  let s :=
    match s.queuedDirection with
    | some d => { s with direction := d, queuedDirection := none }
    | none => s
  match s.segments.map (·.pos) with
  | [] => s
  | head :: _ =>
    let d := s.direction.delta
    let newHead : Position :=
      ⟨wrapCoordinate s.boardSize (head.x + d.x),
       wrapCoordinate s.boardSize (head.y + d.y)⟩
    let oldPositions := s.segments.map (·.pos)
    let newPositions := newHead :: oldPositions.dropLast
    { s with segments := List.zipWith (fun p q => ⟨p, q⟩) newPositions oldPositions }

/-- `Snake.updateEffects` (private): drop every timed-out effect; if a
timed-out effect was a speed effect (red/green), reset the modifier. -/
def Snake.updateEffects (s : Snake) (now : ℚ) : Snake :=
  let expired := s.activeEffects.filter
    (fun e => decide (e.2.duration ≤ now - e.2.startTime))
  let remaining := s.activeEffects.filter
    (fun e => decide (now - e.2.startTime < e.2.duration))
  { s with
    activeEffects := remaining
    speedModifier :=
      if expired.any (fun e => e.1 == AppleColor.red || e.1 == AppleColor.green) then 1
      else s.speedModifier }

/-- `Snake.update`: accumulate `deltaTime` against the per-tile move
interval and move on overflow.  Returns the snake and whether it moved. -/
def Snake.update (s : Snake) (deltaTime now : ℚ) : Snake × Bool :=
  if !s.isAlive then (s, false)
  else
    let s := s.updateEffects now
    let moveInterval := 1000 / s.getSpeed
    let acc := s.moveAccumulator + deltaTime
    if moveInterval ≤ acc then
      (Snake.move { s with moveAccumulator := acc - moveInterval }, true)
    else
      ({ s with moveAccumulator := acc }, false)

/-- `Snake.checkTailShed` (private).  The shed positions are the payload
of the `onTailShed` callback, returned to the caller. -/
def Snake.checkTailShed (s : Snake) : Snake × List Position :=
  if TAIL_SHED_THRESHOLD < s.segments.length then
    let blockPositions := (s.segments.drop TAIL_SHED_REMAINING).map (·.pos)
    ({ s with segments := s.segments.take TAIL_SHED_REMAINING }, blockPositions)
  else (s, [])

/-- `Snake.grow`: duplicate the tail segment, then shed if overlong. -/
def Snake.grow (s : Snake) : Snake × List Position :=
  if !s.isAlive then (s, [])
  else
    match s.segments.getLast? with
    | none => Snake.checkTailShed s
    | some tail => Snake.checkTailShed { s with segments := s.segments ++ [tail] }

/-- `Snake.eatApple`: update the combo streak, grow, and report whether
a 3-combo fired (count resets to 0, color retained).  Also returns the
shed positions from `grow`. -/
def Snake.eatApple (s : Snake) (appleColor : AppleColor) : Snake × Bool × List Position :=
  if !s.isAlive then (s, false, [])
  else
    let combo : ComboStreak :=
      if s.combo.color = some appleColor then
        { s.combo with count := s.combo.count + 1 }
      else
        ⟨some appleColor, 1⟩
    let grown := (Snake.grow { s with combo := combo })
    let s := grown.1
    if 3 ≤ s.combo.count then
      ({ s with combo := { s.combo with count := 0 } }, true, grown.2)
    else
      (s, false, grown.2)

/-- `Snake.applyEffect`.  Note: the source has no liveness guard here.
Speed-category installs (red/green) first delete both category members
and reset the modifier, then install the new effect and modifier. -/
def Snake.applyEffect (s : Snake) (effectType : AppleColor) (duration now : ℚ) : Snake :=
  let s :=
    if effectType = .red ∨ effectType = .green then
      { s with
        activeEffects := mapDelete .green (mapDelete .red s.activeEffects)
        speedModifier := 1 }
    else s
  let s :=
    { s with
      activeEffects := mapSet effectType ⟨effectType, now, duration⟩ s.activeEffects }
  match effectType with
  | .red => { s with speedModifier := 3 / 2 }
  | .green => { s with speedModifier := 1 / 2 }
  | _ => s

def Snake.hasEffect (s : Snake) (effectType : AppleColor) : Bool :=
  mapHas effectType s.activeEffects

/-- `Snake.checkSelfCollision`: head against every segment from index 2. -/
def Snake.checkSelfCollision (s : Snake) : Bool :=
  if !s.isAlive then false
  else (s.segments.drop 2).any (fun seg => seg.pos == s.getHead)

/-- `Snake.checkCollisionWithSnake`: this head against the other snake's
segments; both snakes must be alive. -/
def Snake.checkCollisionWithSnake (s other : Snake) : Bool :=
  if !s.isAlive || !other.isAlive then false
  else if s = other then s.checkSelfCollision
  else other.segments.any (fun seg => seg.pos == s.getHead)

/-- `Snake.die`: transition to `dead` once; returns the segment
positions for gray-block conversion, or `[]` if already non-alive. -/
def Snake.die (s : Snake) : Snake × List Position :=
  if s.state ≠ .alive then (s, [])
  else ({ s with state := .dead }, s.segments.map (·.pos))

def Snake.enterSpectatorMode (s : Snake) : Snake :=
  { s with state := .spectating }

/-! ## Apple (src/entities/Apple.ts) -/

inductive AppleState
  | spawning
  | active
  | consumed
  deriving DecidableEq, Repr

structure Apple where
  id : Nat
  color : AppleColor
  position : Position
  state : AppleState
  spawnTime : ℚ
  deriving DecidableEq, Repr

/-- The apple constructor: new apples start `spawning` at the current
time.  `Apple.createRandom` additionally draws the color from
`Math.random`; the draw is the `color` argument here. -/
def Apple.new (id : Nat) (color : AppleColor) (position : Position) (now : ℚ) : Apple :=
  ⟨id, color, position, .spawning, now⟩

def SPAWN_ANIMATION_DURATION : ℚ := 300

/-- `Apple.update`: a `spawning` apple becomes `active` once its spawn
animation window has elapsed (the source reads `performance.now()`). -/
def Apple.update (a : Apple) (now : ℚ) : Apple :=
  if a.state = .spawning ∧ SPAWN_ANIMATION_DURATION ≤ now - a.spawnTime then
    { a with state := .active }
  else a

def Apple.isActive (a : Apple) : Bool :=
  a.state == .active

def Apple.consume (a : Apple) : Apple :=
  { a with state := .consumed }

def Apple.isAt (a : Apple) (pos : Position) : Bool :=
  a.position == pos

/-! ## Apple population (src/systems/AppleManager.ts) -/

/-- One spawn attempt's worth of `Math.random` draws: the candidate
positions tried by `findEmptyPosition` (the source draws up to 100),
the index drawn for the exhaustive-scan fallback, and the color drawn
by `Apple.createRandom`. -/
structure SpawnRand where
  attempts : List Position
  fallbackIdx : Nat
  color : AppleColor
  deriving Repr

instance : Inhabited SpawnRand :=
  ⟨⟨[], 0, .red⟩⟩

structure AppleManager where
  apples : List Apple
  nextAppleId : Nat
  boardSize : Int
  occupiedPositions : List Position
  deriving DecidableEq, Repr

/-- Payload of the `onAppleConsumed` callback.  `GameScreen` never
installs this callback, but the notification data is returned so the
no-op can be observed. -/
structure AppleConsumedNotice where
  appleId : Nat
  playerId : Nat
  triggeredEffect : Bool
  deriving DecidableEq, Repr

def AppleManager.updateOccupiedPositions (m : AppleManager) (positions : List Position) : AppleManager :=
  { m with occupiedPositions := positions }

/-- `findEmptyPosition` (private): up to 100 random candidates, then an
exhaustive scan with a random pick among the empty tiles. -/
def AppleManager.findEmptyPosition (m : AppleManager) (attempts : List Position)
    (fallbackIdx : Nat) : Option Position :=
  let applePositions := m.apples.map (·.position)
  let isFree := fun (p : Position) =>
    !(m.occupiedPositions.contains p) && !(applePositions.contains p)
  match (attempts.take 100).find? isFree with
  | some p => some p
  | none =>
    let emptyPositions := (List.range m.boardSize.toNat).flatMap (fun x =>
      (List.range m.boardSize.toNat).filterMap (fun y =>
        let p : Position := ⟨x, y⟩
        if isFree p then some p else none))
    emptyPositions.get? (fallbackIdx % emptyPositions.length)

/-- `spawnRandomApple`: place a randomly colored apple on a random
empty tile, or do nothing when no tile is free. -/
def AppleManager.spawnRandomApple (m : AppleManager) (r : SpawnRand) (now : ℚ) :
    AppleManager × Option Apple :=
  match m.findEmptyPosition r.attempts r.fallbackIdx with
  | none => (m, none)
  | some position =>
    let apple := Apple.new m.nextAppleId r.color position now
    ({ m with apples := m.apples ++ [apple], nextAppleId := m.nextAppleId + 1 },
     some apple)

def AppleManager.isPositionOccupied (m : AppleManager) (pos : Position) : Bool :=
  m.occupiedPositions.contains pos || m.apples.any (fun a => a.isAt pos)

/-- `spawnApple`: place an apple of a given color at a given position
(used by the gray-block conversion callback). -/
def AppleManager.spawnApple (m : AppleManager) (position : Position) (color : AppleColor)
    (now : ℚ) : AppleManager × Option Apple :=
  if m.isPositionOccupied position then (m, none)
  else
    let apple := Apple.new m.nextAppleId color position now
    ({ m with apples := m.apples ++ [apple], nextAppleId := m.nextAppleId + 1 },
     some apple)

/-- `getActiveAppleCount`: apples not yet consumed (active + spawning). -/
def AppleManager.getActiveAppleCount (m : AppleManager) : Nat :=
  (m.apples.filter (fun a => !(a.state == .consumed))).length

/-- `spawnAppleRain` (purple effect): `PURPLE_APPLE_SPAWN_COUNT`
spawn attempts. -/
def AppleManager.spawnAppleRain (m : AppleManager) (rands : List SpawnRand) (now : ℚ) :
    AppleManager :=
  (List.range PURPLE_APPLE_SPAWN_COUNT).foldl
    (fun acc i => (acc.spawnRandomApple (rands.getD i default) now).1) m

/-- `maintainMinimumApples` (private): spawn while the active count is
below `MIN_APPLES`; otherwise do nothing. -/
def AppleManager.maintainMinimumApples (m : AppleManager) (rands : List SpawnRand)
    (now : ℚ) : AppleManager :=
  let activeCount := m.getActiveAppleCount
  if activeCount < MIN_APPLES then
    (List.range (MIN_APPLES - activeCount)).foldl
      (fun acc i => (acc.spawnRandomApple (rands.getD i default) now).1) m
  else m

/-- `AppleManager.update`: advance each apple's lifecycle, then re-top
the population. -/
def AppleManager.update (m : AppleManager) (now : ℚ) (rands : List SpawnRand) :
    AppleManager :=
  let m := { m with apples := m.apples.map (fun (a : Apple) => a.update now) }
  m.maintainMinimumApples rands now

/-- `checkCollision`: the snake head against active apples. -/
def AppleManager.checkCollision (m : AppleManager) (snake : Snake) : Option Apple :=
  m.apples.find? (fun a => a.isActive && a.isAt snake.getHead)

/-- `consumeApple`: no-op returning `false` when the apple is not in
the live set; otherwise remove it, delegate to `Snake.eatApple` and
report whether a combo fired.  Returned alongside: the tail-shed
positions from `grow` and the `onAppleConsumed` notification payload. -/
def AppleManager.consumeApple (m : AppleManager) (apple : Apple) (s : Snake) :
    AppleManager × Snake × Bool × List Position × List AppleConsumedNotice :=
  if !(m.apples.any (fun a => a.id == apple.id)) then (m, s, false, [], [])
  else
    let m := { m with apples := m.apples.filter (fun a => !(a.id == apple.id)) }
    let eaten := s.eatApple apple.color
    (m, eaten.1, eaten.2.1, eaten.2.2,
     [⟨apple.id, eaten.1.playerId, eaten.2.1⟩])

/-! ## Gray blocks (src/entities/GrayBlock.ts, src/systems/GrayBlockManager.ts) -/

inductive GrayBlockState
  | active
  | converting
  | removed
  deriving DecidableEq, Repr

def CONVERSION_DURATION : ℚ := 300

/-- The source also stores a random `pulsePhase` used only by
`getPulseValue` for rendering; it is omitted here. -/
structure GrayBlock where
  id : Nat
  position : Position
  state : GrayBlockState
  conversionStartTime : ℚ
  deriving DecidableEq, Repr

def GrayBlock.isActive (b : GrayBlock) : Bool :=
  b.state == .active

def GrayBlock.isRemoved (b : GrayBlock) : Bool :=
  b.state == .removed

def GrayBlock.isAt (b : GrayBlock) (pos : Position) : Bool :=
  b.position == pos

/-- `GrayBlock.update`: a `converting` block self-reports `removed`
once its conversion window elapses. -/
def GrayBlock.update (b : GrayBlock) (now : ℚ) : GrayBlock :=
  if b.state = .converting ∧ CONVERSION_DURATION ≤ now - b.conversionStartTime then
    { b with state := .removed }
  else b

/-- `GrayBlock.startConversion`: only valid on an `active` block. -/
def GrayBlock.startConversion (b : GrayBlock) (now : ℚ) : GrayBlock :=
  if b.state ≠ .active then b
  else { b with state := .converting, conversionStartTime := now }

structure GrayBlockManager where
  blocks : List GrayBlock
  nextBlockId : Nat
  deriving DecidableEq, Repr

/-- `spawnBlocks`: one fresh block per position. -/
def GrayBlockManager.spawnBlocks (mgr : GrayBlockManager) (positions : List Position) :
    GrayBlockManager :=
  positions.foldl
    (fun mgr pos =>
      { mgr with
        blocks := mgr.blocks ++ [⟨mgr.nextBlockId, pos, .active, 0⟩]
        nextBlockId := mgr.nextBlockId + 1 })
    mgr

/-- `GrayBlockManager.update`: advance every block, then purge
`removed` ones. -/
def GrayBlockManager.update (mgr : GrayBlockManager) (now : ℚ) : GrayBlockManager :=
  let blocks := mgr.blocks.map (fun b => b.update now)
  { mgr with blocks := blocks.filter (fun b => !b.isRemoved) }

/-- `getBlockAt`: only `active` blocks are found. -/
def GrayBlockManager.getBlockAt (mgr : GrayBlockManager) (pos : Position) :
    Option GrayBlock :=
  mgr.blocks.find? (fun b => b.isActive && b.isAt pos)

def GrayBlockManager.hasBlockAt (mgr : GrayBlockManager) (pos : Position) : Bool :=
  (mgr.getBlockAt pos).isSome

/-- `convertBlock`: start the conversion of an `active` block and
return the `onBlockConverted` callback payloads (the orchestrator
wires this callback to spawn a replacement apple). -/
def GrayBlockManager.convertBlock (mgr : GrayBlockManager) (block : GrayBlock) (now : ℚ) :
    GrayBlockManager × List GrayBlock :=
  if !block.isActive then (mgr, [])
  else
    let converted := block.startConversion now
    ({ mgr with
       blocks := mgr.blocks.map (fun b => if b.id == block.id then converted else b) },
     [converted])

/-- `getOccupiedPositions`: positions of `active` blocks only. -/
def GrayBlockManager.getOccupiedPositions (mgr : GrayBlockManager) : List Position :=
  (mgr.blocks.filter (fun b => b.isActive)).map (·.position)

/-! ## Projectiles (src/entities/Projectile.ts, src/systems/ProjectileManager.ts) -/

inductive ProjectileState
  | active
  | hit
  | expired
  deriving DecidableEq, Repr

/-- Projectile speed: 20 tiles/second, i.e. one tile per 50 ms. -/
def PROJECTILE_SPEED : ℚ := 20

def MAX_TRAIL_LENGTH : Nat := 5

structure Projectile where
  id : Nat
  ownerId : Nat
  position : Position
  direction : Direction
  boardSize : Int
  state : ProjectileState
  moveAccumulator : ℚ
  prevPosition : Position
  trail : List Position
  deriving DecidableEq, Repr

def Projectile.isActive (p : Projectile) : Bool :=
  p.state == .active

def Projectile.hit (p : Projectile) : Projectile :=
  { p with state := .hit }

/-- `Projectile.move` (private): push the trail, step one tile in the
facing direction, and report `false` (wall hit) instead of wrapping
when the step leaves the board. -/
def Projectile.move (p : Projectile) : Projectile × Bool :=
  let p := { p with prevPosition := p.position }
  let trail := p.trail ++ [p.position]
  let trail := if MAX_TRAIL_LENGTH < trail.length then trail.drop 1 else trail
  let p := { p with trail := trail }
  let d := p.direction.delta
  let newX := p.position.x + d.x
  let newY := p.position.y + d.y
  if newX < 0 ∨ p.boardSize ≤ newX ∨ newY < 0 ∨ p.boardSize ≤ newY then
    (p, false)
  else
    ({ p with position := ⟨newX, newY⟩ }, true)

/-- The catch-up `while` loop of `Projectile.update`, with explicit
fuel.  Each iteration consumes one move interval from the accumulator;
a failed move (wall exit) sets `expired` and stops.  `update` supplies
enough fuel that the zero-fuel branch is unreachable. -/
def Projectile.steps : Projectile → ℚ → Bool → Nat → Projectile × ℚ × Bool
  | p, acc, moved, 0 => (p, acc, moved)
  | p, acc, moved, fuel + 1 =>
    if 1000 / PROJECTILE_SPEED ≤ acc then
      let acc := acc - 1000 / PROJECTILE_SPEED
      let mv := p.move
      if mv.2 then Projectile.steps mv.1 acc true fuel
      else ({ mv.1 with state := .expired }, acc, false)
    else (p, acc, moved)

/-- `Projectile.update`: accumulate `deltaTime` and take every move the
accumulator affords; expire on wall exit. -/
def Projectile.update (p : Projectile) (deltaTime : ℚ) : Projectile × Bool :=
  if !p.isActive then (p, false)
  else
    let acc := p.moveAccumulator + deltaTime
    let fuel := (⌊acc / (1000 / PROJECTILE_SPEED)⌋).toNat + 1
    let r := Projectile.steps p acc false fuel
    ({ r.1 with moveAccumulator := r.2.1 }, r.2.2)

structure ProjectileManager where
  projectiles : List Projectile
  nextProjectileId : Nat
  boardSize : Int
  deriving DecidableEq, Repr

/-- `spawnFromSnake` (orange effect): spawn one tile ahead of the head,
wrapping the spawn tile only. -/
def ProjectileManager.spawnFromSnake (mgr : ProjectileManager) (snake : Snake) :
    ProjectileManager × Projectile :=
  let head := snake.getHead
  let d := snake.direction.delta
  let sx := head.x + d.x
  let sy := head.y + d.y
  let sx := if sx < 0 then mgr.boardSize - 1 else if mgr.boardSize ≤ sx then 0 else sx
  let sy := if sy < 0 then mgr.boardSize - 1 else if mgr.boardSize ≤ sy then 0 else sy
  let p : Projectile :=
    ⟨mgr.nextProjectileId, snake.playerId, ⟨sx, sy⟩, snake.direction, mgr.boardSize,
     .active, 0, ⟨sx, sy⟩, []⟩
  ({ mgr with
     projectiles := mgr.projectiles ++ [p]
     nextProjectileId := mgr.nextProjectileId + 1 },
   p)

/-! ## Effect coordinator (src/systems/EffectManager.ts) -/

structure ActiveGlobalEffect where
  type : AppleColor
  startTime : ℚ
  duration : ℚ
  triggeredBy : Nat
  deriving DecidableEq, Repr

structure EffectManager where
  globalEffects : List (AppleColor × ActiveGlobalEffect)
  deriving DecidableEq, Repr

/-- `EffectManager.update`: sweep the global-effect slots for expiry
(the end notification only toggles rendering/audio collaborators). -/
def EffectManager.update (em : EffectManager) (now : ℚ) : EffectManager :=
  { em with
    globalEffects :=
      em.globalEffects.filter (fun e => decide (now - e.2.startTime < e.2.duration)) }

/-- `applyRainDistortion` (blue): replace any existing blue effect,
restarting its timer. -/
def EffectManager.applyRainDistortion (em : EffectManager) (triggeredByPlayerId : Nat)
    (now : ℚ) : EffectManager :=
  let ge :=
    if mapHas .blue em.globalEffects then mapDelete .blue em.globalEffects
    else em.globalEffects
  { em with
    globalEffects := mapSet .blue ⟨.blue, now, EFFECT_DURATION, triggeredByPlayerId⟩ ge }

/-! ## Simulation orchestrator (src/screens/GameScreen.ts)

The orchestrator owns every manager.  Its constructor-wired callbacks
are inlined at the call sites below exactly as wired: the snake's
`onTailShed` spawns gray blocks, `onBlockConverted` recomputes the
occupied set and spawns a replacement apple, `onProjectileSpawn`
delegates to the projectile manager, `onAppleRain` to the apple
manager.  Audio and renderer calls (sounds, screen shake, rain visual)
go to out-of-scope collaborators and are not modelled. -/

/-- The `Math.random` draws one `GameScreen.update` tick may consume:
spawn attempts for the apple-minimum maintenance pass, spawn attempts
for a purple apple rain, and the random colors for block-conversion
apples. -/
structure TickRand where
  maintainRands : List SpawnRand
  rainRands : List SpawnRand
  convertColors : List AppleColor
  deriving Repr

instance : Inhabited TickRand :=
  ⟨⟨[], [], []⟩⟩

structure GameScreen where
  boardSize : Int
  baseSpeed : ℚ
  snakes : List Snake
  appleManager : AppleManager
  grayBlockManager : GrayBlockManager
  projectileManager : ProjectileManager
  effectManager : EffectManager
  scores : List (Nat × Int)
  isGameOver : Bool
  gameStartTime : ℚ
  elapsedTime : ℚ
  snakeDeathTimes : List (Nat × ℚ)
  gameOverEvents : List (List (Nat × Int))
  deriving DecidableEq, Repr

/-- Write snake `s` back into slot `i` of the players map. -/
def GameScreen.setSnakeAt (g : GameScreen) (i : Nat) (s : Snake) : GameScreen :=
  { g with snakes := g.snakes.set i s }

/-- `updateOccupiedPositions`: alive snake segments plus active gray
blocks, handed to the apple population. -/
def GameScreen.updateOccupiedPositions (g : GameScreen) : GameScreen :=
  let positions :=
    ((g.snakes.filter (fun s => s.isAlive)).flatMap (fun s => s.segments.map (·.pos)))
      ++ g.grayBlockManager.getOccupiedPositions
  { g with appleManager := g.appleManager.updateOccupiedPositions positions }

/-- `killSnake`: finalize one snake's death — hand its body to the
gray-block field, enter spectator mode, record the survival time. -/
def GameScreen.killSnakeAt (g : GameScreen) (i : Nat) : GameScreen :=
  match g.snakes.get? i with
  | none => g
  | some snake =>
    let died := snake.die
    let g := { g with grayBlockManager := g.grayBlockManager.spawnBlocks died.2 }
    let g := g.setSnakeAt i died.1.enterSpectatorMode
    { g with snakeDeathTimes := mapSet died.1.playerId g.elapsedTime g.snakeDeathTimes }

/-- `checkSnakeCollisions`: self-collision, then every other snake,
then gray blocks; the first positive test kills the snake. -/
def GameScreen.checkSnakeCollisionsAt (g : GameScreen) (i : Nat) : GameScreen :=
  match g.snakes.get? i with
  | none => g
  | some snake =>
    if snake.checkSelfCollision then g.killSnakeAt i
    else if g.snakes.any (fun other =>
        !(other.playerId == snake.playerId) && snake.checkCollisionWithSnake other) then
      g.killSnakeAt i
    else if g.grayBlockManager.hasBlockAt snake.getHead then g.killSnakeAt i
    else g

/-- `EffectManager.applyEffect` with the orchestrator's wired
callbacks: red/green delegate to the snake, blue restarts the global
rain effect, orange spawns a projectile, purple an apple rain. -/
def GameScreen.applyComboEffect (g : GameScreen) (color : AppleColor) (i : Nat) (now : ℚ)
    (rand : TickRand) : GameScreen :=
  match g.snakes.get? i with
  | none => g
  | some snake =>
    match color with
    | .red => g.setSnakeAt i (snake.applyEffect .red EFFECT_DURATION now)
    | .green => g.setSnakeAt i (snake.applyEffect .green EFFECT_DURATION now)
    | .blue =>
      { g with effectManager := g.effectManager.applyRainDistortion snake.playerId now }
    | .orange =>
      { g with projectileManager := (g.projectileManager.spawnFromSnake snake).1 }
    | .purple =>
      { g with appleManager := g.appleManager.spawnAppleRain rand.rainRands now }

/-- One iteration of the per-snake loop in `GameScreen.update`:
advance snake `i`; when it moved, test the apple collision (scoring
10, and 50 more plus the effect on a combo trigger) and then the
fatal collisions. -/
def GameScreen.snakeStep (g : GameScreen) (deltaTime now : ℚ) (rand : TickRand) (i : Nat) :
    GameScreen :=
  match g.snakes.get? i with
  | none => g
  | some snake =>
    if !snake.isAlive then g
    else
      let upd := snake.update deltaTime now
      let snake := upd.1
      let g := g.setSnakeAt i snake
      if !upd.2 then g
      else
        let g :=
          match g.appleManager.checkCollision snake with
          | none => g
          | some apple =>
            let consumed := g.appleManager.consumeApple apple snake
            let snake := consumed.2.1
            let triggeredEffect := consumed.2.2.1
            let g := { g with appleManager := consumed.1 }
            let g := g.setSnakeAt i snake
            let g :=
              { g with
                grayBlockManager := g.grayBlockManager.spawnBlocks consumed.2.2.2.1 }
            let g :=
              { g with
                scores :=
                  mapSet snake.playerId
                    ((mapGet snake.playerId g.scores).getD 0 + 10) g.scores }
            if triggeredEffect then
              let g := g.applyComboEffect apple.color i now rand
              { g with
                scores :=
                  mapSet snake.playerId
                    ((mapGet snake.playerId g.scores).getD 0 + 50) g.scores }
            else g
        g.checkSnakeCollisionsAt i

/-- The whole per-snake loop: snakes are processed one after another
in map order, each one's movement, collision tests and death
finalization completing before the next snake is touched. -/
def GameScreen.snakeLoop (deltaTime now : ℚ) (rand : TickRand) :
    GameScreen → Nat → Nat → GameScreen
  | g, _, 0 => g
  | g, i, n + 1 =>
    GameScreen.snakeLoop deltaTime now rand (g.snakeStep deltaTime now rand i) (i + 1) n

/-- Store an updated projectile back into the projectile map. -/
def GameScreen.writeProjectile (g : GameScreen) (p : Projectile) : GameScreen :=
  { g with
    projectileManager :=
      { g.projectileManager with
        projectiles :=
          g.projectileManager.projectiles.map (fun q => if q.id == p.id then p else q) } }

/-- The wired `onBlockConverted` callback, once per converted block:
recompute the occupied set (now excluding the converting block), then
spawn a randomly colored apple on the freed tile. -/
def GameScreen.convertedStep (now : ℚ) (colors : List AppleColor)
    (st : GameScreen × Nat) (block : GrayBlock) : GameScreen × Nat :=
  let g := st.1.updateOccupiedPositions
  let g :=
    { g with
      appleManager :=
        (g.appleManager.spawnApple block.position (colors.getD st.2 .red) now).1 }
  (g, st.2 + 1)

def GameScreen.processConversions (g : GameScreen) (converted : List GrayBlock) (now : ℚ)
    (colors : List AppleColor) (cIdx : Nat) : GameScreen × Nat :=
  converted.foldl (GameScreen.convertedStep now colors) (g, cIdx)

/-- `ProjectileManager.update` as run by the orchestrator: advance
every projectile, collect inactive ones for removal, convert any gray
block a projectile landed on (spawning the replacement apple through
the wired callback), and purge the collected ids. -/
def GameScreen.projectileStep (deltaTime now : ℚ) (colors : List AppleColor)
    (st : GameScreen × List Nat × Nat) (proj : Projectile) :
    GameScreen × List Nat × Nat :=
  let g := st.1
  let toRemove := st.2.1
  let cIdx := st.2.2
  if !proj.isActive then (g, toRemove ++ [proj.id], cIdx)
  else
    let p := (proj.update deltaTime).1
    let g := g.writeProjectile p
    if !p.isActive then (g, toRemove ++ [p.id], cIdx)
    else
      match g.grayBlockManager.getBlockAt p.position with
      | none => (g, toRemove, cIdx)
      | some block =>
        let g := g.writeProjectile p.hit
        let conv := g.grayBlockManager.convertBlock block now
        let g := { g with grayBlockManager := conv.1 }
        let processed := g.processConversions conv.2 now colors cIdx
        (processed.1, toRemove ++ [p.id], processed.2)

def GameScreen.projectilePhase (g : GameScreen) (deltaTime now : ℚ)
    (colors : List AppleColor) : GameScreen :=
  let snapshot := g.projectileManager.projectiles
  let result := snapshot.foldl (GameScreen.projectileStep deltaTime now colors)
    (g, ([] : List Nat), 0)
  { result.1 with
    projectileManager :=
      { result.1.projectileManager with
        projectiles :=
          result.1.projectileManager.projectiles.filter
            (fun q => !(result.2.1.contains q.id)) } }

/-- The maximum of the recorded survival times (0 when none), as
computed at the start of `calculateFinalScores`. -/
def GameScreen.maxSurvivalTime (g : GameScreen) : ℚ :=
  g.snakeDeathTimes.foldl (fun mx e => if mx < e.2 then e.2 else mx) 0

/-- The bonus `calculateFinalScores` adds to one player's score:
1 point per full second survived, plus 100 for matching the maximum
survival time when more than one snake exists. -/
def GameScreen.finalBonus (g : GameScreen) (pid : Nat) : Int :=
  let survivalTime : ℚ := (mapGet pid g.snakeDeathTimes).getD 0
  ⌊survivalTime / 1000⌋ +
    (if survivalTime = g.maxSurvivalTime ∧ 1 < g.snakes.length then 100 else 0)

/-- `calculateFinalScores`: add each player's survival and
longest-survivor bonuses to the running scores. -/
def GameScreen.calculateFinalScores (g : GameScreen) : GameScreen :=
  let scores := g.snakes.foldl
    (fun scores snake =>
      mapSet snake.playerId
        ((mapGet snake.playerId scores).getD 0 + g.finalBonus snake.playerId) scores)
    g.scores
  { g with scores := scores }

/-- `checkGameOver`: when no snake is alive, enter the terminal state,
compute the final scores and raise `onGameOver` exactly once (modelled
by appending the score map to `gameOverEvents`). -/
def GameScreen.checkGameOver (g : GameScreen) : GameScreen :=
  let aliveCount := (g.snakes.filter (fun s => s.isAlive)).length
  if aliveCount = 0 then
    let g := { g with isGameOver := true }
    let g := g.calculateFinalScores
    { g with gameOverEvents := g.gameOverEvents ++ [g.scores] }
  else g

/-- The phases of one tick that precede the game-over check: elapsed
time, effects, occupied positions, the per-snake loop, the apple
population, the gray-block field and the projectile set, in the
source's fixed order. -/
def GameScreen.runPhases (g : GameScreen) (deltaTime now : ℚ) (rand : TickRand) : GameScreen :=
  let g := { g with elapsedTime := now - g.gameStartTime }
  let g := { g with effectManager := g.effectManager.update now }
  let g := g.updateOccupiedPositions
  let g := GameScreen.snakeLoop deltaTime now rand g 0 g.snakes.length
  let g := { g with appleManager := g.appleManager.update now rand.maintainRands }
  let g := { g with grayBlockManager := g.grayBlockManager.update now }
  g.projectilePhase deltaTime now rand.convertColors

/-- One orchestrator tick, `GameScreen.update`: an early return when
the game is over, then the phases above followed by the game-over
check. -/
def GameScreen.update (g : GameScreen) (deltaTime now : ℚ) (rand : TickRand) : GameScreen :=
  if g.isGameOver then g
  else (g.runPhases deltaTime now rand).checkGameOver

/-! ## Lemmas about the association-list map -/

theorem mapGet_cons [DecidableEq κ] (k : κ) (e : κ × α) (t : List (κ × α)) :
    mapGet k (e :: t) = if e.1 = k then some e.2 else mapGet k t := by
  by_cases h : e.1 = k
  · simp [mapGet, List.find?_cons_of_pos, h]
  · simp [mapGet, List.find?_cons_of_neg, h]

theorem mapDelete_cons [DecidableEq κ] (k : κ) (e : κ × α) (t : List (κ × α)) :
    mapDelete k (e :: t) = if e.1 = k then mapDelete k t else e :: mapDelete k t := by
  by_cases h : e.1 = k <;> simp [mapDelete, List.filter_cons, h]

theorem mapGet_mapDelete_same [DecidableEq κ] (k : κ) (m : List (κ × α)) :
    mapGet k (mapDelete k m) = none := by
  induction m with
  | nil => rfl
  | cons e t ih =>
    rw [mapDelete_cons]
    by_cases he : e.1 = k
    · rw [if_pos he]; exact ih
    · rw [if_neg he, mapGet_cons, if_neg he]; exact ih

theorem mapGet_mapDelete_ne [DecidableEq κ] {k₁ k₂ : κ} (h : k₂ ≠ k₁)
    (m : List (κ × α)) : mapGet k₂ (mapDelete k₁ m) = mapGet k₂ m := by
  induction m with
  | nil => rfl
  | cons e t ih =>
    rw [mapDelete_cons]
    by_cases he : e.1 = k₁
    · have hek2 : e.1 ≠ k₂ := by rw [he]; exact fun hx => h hx.symm
      rw [if_pos he, mapGet_cons, if_neg hek2]
      exact ih
    · rw [if_neg he, mapGet_cons, mapGet_cons]
      by_cases he2 : e.1 = k₂
      · rw [if_pos he2, if_pos he2]
      · rw [if_neg he2, if_neg he2]; exact ih

/-- If no key of `m` equals `k`, the `Map.set` replacement pass leaves
`m` unchanged. -/
theorem mapSet_map_eq_of_not_any [DecidableEq κ] {k : κ} {v : α} {m : List (κ × α)}
    (h : ¬m.any (fun e => decide (e.1 = k)) = true) :
    m.map (fun e => if e.1 = k then (k, v) else e) = m := by
  rw [List.map_congr_left, List.map_id]
  intro x hx
  have hxk : ¬(x.1 = k) := by
    intro hx1
    exact absurd (List.any_eq_true.mpr ⟨x, hx, by simp [hx1]⟩) h
  simp [hxk]

theorem mapGet_mapSet_same [DecidableEq κ] (k : κ) (v : α) (m : List (κ × α)) :
    mapGet k (mapSet k v m) = some v := by
  induction m with
  | nil => simp [mapSet, mapGet]
  | cons e t ih =>
    by_cases h : e.1 = k
    · have hms : mapSet k v (e :: t)
          = (k, v) :: t.map (fun x => if x.1 = k then (k, v) else x) := by
        simp [mapSet, List.any_cons, h]
      rw [hms, mapGet_cons]
      simp
    · by_cases ht : t.any (fun x => decide (x.1 = k)) = true
      · have hms : mapSet k v (e :: t)
            = e :: t.map (fun x => if x.1 = k then (k, v) else x) := by
          simp [mapSet, List.any_cons, h, ht]
        have hmt : mapSet k v t = t.map (fun x => if x.1 = k then (k, v) else x) := by
          simp [mapSet, ht]
        rw [hms, mapGet_cons, if_neg h, ← hmt]
        exact ih
      · have hms : mapSet k v (e :: t) = e :: (t ++ [(k, v)]) := by
          simp [mapSet, List.any_cons, h, ht]
        have hmt : mapSet k v t = t ++ [(k, v)] := by
          simp [mapSet, ht]
        rw [hms, mapGet_cons, if_neg h, ← hmt]
        exact ih

theorem mapGet_mapSet_ne [DecidableEq κ] {k₁ k₂ : κ} (h : k₂ ≠ k₁) (v : α)
    (m : List (κ × α)) : mapGet k₂ (mapSet k₁ v m) = mapGet k₂ m := by
  have hk12 : (k₁ : κ) ≠ k₂ := fun hx => h hx.symm
  induction m with
  | nil =>
    have hms : mapSet k₁ v ([] : List (κ × α)) = [(k₁, v)] := by simp [mapSet]
    rw [hms, mapGet_cons, if_neg hk12]
  | cons e t ih =>
    by_cases he : e.1 = k₁
    · have hek2 : e.1 ≠ k₂ := by rw [he]; exact hk12
      have hms : mapSet k₁ v (e :: t)
          = (k₁, v) :: t.map (fun x => if x.1 = k₁ then (k₁, v) else x) := by
        simp [mapSet, List.any_cons, he]
      rw [hms, mapGet_cons, if_neg hk12, mapGet_cons, if_neg hek2]
      by_cases ht : t.any (fun x => decide (x.1 = k₁)) = true
      · have hmt : mapSet k₁ v t = t.map (fun x => if x.1 = k₁ then (k₁, v) else x) := by
          simp [mapSet, ht]
        rw [← hmt]; exact ih
      · rw [mapSet_map_eq_of_not_any ht]
    · by_cases ht : t.any (fun x => decide (x.1 = k₁)) = true
      · have hms : mapSet k₁ v (e :: t)
            = e :: t.map (fun x => if x.1 = k₁ then (k₁, v) else x) := by
          simp [mapSet, List.any_cons, he, ht]
        have hmt : mapSet k₁ v t = t.map (fun x => if x.1 = k₁ then (k₁, v) else x) := by
          simp [mapSet, ht]
        rw [hms, mapGet_cons, mapGet_cons, ← hmt]
        by_cases he2 : e.1 = k₂
        · rw [if_pos he2, if_pos he2]
        · rw [if_neg he2, if_neg he2]; exact ih
      · have hms : mapSet k₁ v (e :: t) = e :: (t ++ [(k₁, v)]) := by
          simp [mapSet, List.any_cons, he, ht]
        have hmt : mapSet k₁ v t = t ++ [(k₁, v)] := by
          simp [mapSet, ht]
        rw [hms, mapGet_cons, mapGet_cons, ← hmt]
        by_cases he2 : e.1 = k₂
        · rw [if_pos he2, if_pos he2]
        · rw [if_neg he2, if_neg he2]; exact ih

/-! ## C4: effects applied to a non-alive snake -/

def mkSeg (x y : Int) : SnakeSegment :=
  ⟨⟨x, y⟩, ⟨x, y⟩⟩

/-- A snake that already died. -/
def deadSnake : Snake :=
  ⟨1, .dead, [mkSeg 2 2, mkSeg 1 2, mkSeg 0 2], .right, none, 15, 2, 1, 0, [], ⟨none, 0⟩⟩

/-- C4 counterexample: the claim says `Snake.applyEffect` on a non-alive
snake leaves the active-effect map and speed modifier unchanged.  The
source has no liveness guard in `applyEffect`: applying red to this dead
snake installs the effect and sets the modifier to 1.5. -/
theorem c4_counterexample :
    deadSnake.state ≠ SnakeState.alive ∧
    ¬((deadSnake.applyEffect .red EFFECT_DURATION 0).activeEffects
        = deadSnake.activeEffects ∧
      (deadSnake.applyEffect .red EFFECT_DURATION 0).speedModifier
        = deadSnake.speedModifier) := by
  with_unfolding_all decide

/-- C4 amended: `Snake.applyEffect` ignores the snake's liveness
entirely — its action on the effect map and speed modifier is identical
for alive, dead and spectating snakes (the state field is just carried
through).  Effects on non-alive snakes are inert only because
`Snake.update` returns early for them. -/
theorem c4_applyEffect_state_independent (s : Snake) (st : SnakeState) (t : AppleColor)
    (d now : ℚ) :
    Snake.applyEffect { s with state := st } t d now
      = { Snake.applyEffect s t d now with state := st } := by
  cases t <;> rfl

/-! ## C6: speed-category exclusivity -/

/-- C6: for a snake with an active green effect, installing red leaves
red as the only active speed-category effect with modifier exactly 3/2
(never a combined 3/4); symmetrically installing green leaves green
alone with modifier 1/2.  (The conclusions hold for every snake; the
green-active premise of the claim is recorded as a hypothesis.) -/
theorem c6_speed_effect_exclusive (s : Snake) (d now : ℚ)
    (_hgreen : s.hasEffect .green = true) :
    ((s.applyEffect .red d now).hasEffect .red = true ∧
     (s.applyEffect .red d now).hasEffect .green = false ∧
     (s.applyEffect .red d now).speedModifier = 3 / 2) ∧
    ((s.applyEffect .green d now).hasEffect .green = true ∧
     (s.applyEffect .green d now).hasEffect .red = false ∧
     (s.applyEffect .green d now).speedModifier = 1 / 2) := by
  have hrg : (AppleColor.green : AppleColor) ≠ .red := by decide
  have hgr : (AppleColor.red : AppleColor) ≠ .green := by decide
  constructor
  · refine ⟨?_, ?_, rfl⟩
    · simp [Snake.applyEffect, Snake.hasEffect, mapHas, mapGet_mapSet_same]
    · simp [Snake.applyEffect, Snake.hasEffect, mapHas,
        mapGet_mapSet_ne hrg, mapGet_mapDelete_same]
  · refine ⟨?_, ?_, rfl⟩
    · simp [Snake.applyEffect, Snake.hasEffect, mapHas, mapGet_mapSet_same]
    · simp [Snake.applyEffect, Snake.hasEffect, mapHas,
        mapGet_mapSet_ne hgr, mapGet_mapDelete_ne hgr, mapGet_mapDelete_same]

/-- A freshly spawned snake with a green effect active, for the C6
witness. -/
def greenSnake : Snake :=
  ⟨1, .alive, [mkSeg 5 7, mkSeg 4 7, mkSeg 3 7], .right, none, 15, 2, 1 / 2, 0,
   [(.green, ⟨.green, 0, 10000⟩)], ⟨none, 0⟩⟩

theorem c6_speed_effect_exclusive_witness :
    greenSnake.hasEffect .green = true ∧
    (((greenSnake.applyEffect .red 10000 0).hasEffect .red = true ∧
      (greenSnake.applyEffect .red 10000 0).hasEffect .green = false ∧
      (greenSnake.applyEffect .red 10000 0).speedModifier = 3 / 2) ∧
     ((greenSnake.applyEffect .green 10000 0).hasEffect .green = true ∧
      (greenSnake.applyEffect .green 10000 0).hasEffect .red = false ∧
      (greenSnake.applyEffect .green 10000 0).speedModifier = 1 / 2)) :=
  ⟨by with_unfolding_all decide,
   c6_speed_effect_exclusive greenSnake 10000 0 (by with_unfolding_all decide)⟩

/-! ## C5: combo streak -/

theorem Snake.checkTailShed_combo (s : Snake) : s.checkTailShed.1.combo = s.combo := by
  unfold Snake.checkTailShed; split <;> rfl

theorem Snake.checkTailShed_state (s : Snake) : s.checkTailShed.1.state = s.state := by
  unfold Snake.checkTailShed; split <;> rfl

theorem Snake.checkTailShed_playerId (s : Snake) :
    s.checkTailShed.1.playerId = s.playerId := by
  unfold Snake.checkTailShed; split <;> rfl

theorem Snake.grow_combo (s : Snake) : s.grow.1.combo = s.combo := by
  unfold Snake.grow
  split
  · rfl
  · cases s.segments.getLast? <;> simp [Snake.checkTailShed_combo]

theorem Snake.grow_state (s : Snake) : s.grow.1.state = s.state := by
  unfold Snake.grow
  split
  · rfl
  · cases s.segments.getLast? <;> simp [Snake.checkTailShed_state]

theorem Snake.grow_playerId (s : Snake) : s.grow.1.playerId = s.playerId := by
  unfold Snake.grow
  split
  · rfl
  · cases s.segments.getLast? <;> simp [Snake.checkTailShed_playerId]

/-- Characterization of `Snake.eatApple` on an alive snake: the streak
becomes `(c, n)` for `n` the incremented-or-reset count, a trigger
fires exactly when `n` reaches 3, and the count then resets with the
color retained. -/
theorem Snake.eatApple_spec (s : Snake) (c : AppleColor) (h : s.state = .alive) :
    (s.eatApple c).2.1
        = decide (3 ≤ (if s.combo.color = some c then s.combo.count + 1 else 1)) ∧
    (s.eatApple c).1.combo
        = ⟨some c,
           if 3 ≤ (if s.combo.color = some c then s.combo.count + 1 else 1) then 0
           else if s.combo.color = some c then s.combo.count + 1 else 1⟩ ∧
    (s.eatApple c).1.state = .alive := by
  have hAlive : s.isAlive = true := by simp [Snake.isAlive, h]
  by_cases hc : s.combo.color = some c
  · by_cases h3 : 3 ≤ s.combo.count + 1
    · simp [Snake.eatApple, hAlive, hc, Snake.grow_combo, Snake.grow_state, h3, h]
    · simp [Snake.eatApple, hAlive, hc, Snake.grow_combo, Snake.grow_state, h3, h]
  · have h31 : ¬(3 ≤ 1) := by decide
    simp [Snake.eatApple, hAlive, hc, Snake.grow_combo, Snake.grow_state, h31, h]

/-- C5: from a streak not already on red, [red, red, red] triggers on
the 3rd apple and resets the count to 0 with red retained; [red, red,
green] resets to (green, 1) and never triggers. -/
theorem c5_combo_streak (s : Snake) (h1 : s.state = .alive)
    (h2 : s.combo.color ≠ some .red) :
    (s.eatApple .red).2.1 = false ∧
    ((s.eatApple .red).1.eatApple .red).2.1 = false ∧
    (((s.eatApple .red).1.eatApple .red).1.eatApple .red).2.1 = true ∧
    (((s.eatApple .red).1.eatApple .red).1.eatApple .red).1.combo
      = ⟨some .red, 0⟩ ∧
    (((s.eatApple .red).1.eatApple .red).1.eatApple .green).2.1 = false ∧
    (((s.eatApple .red).1.eatApple .red).1.eatApple .green).1.combo
      = ⟨some .green, 1⟩ := by
  obtain ⟨t1, c1, st1⟩ := Snake.eatApple_spec s .red h1
  rw [if_neg h2] at t1 c1
  obtain ⟨t2, c2, st2⟩ := Snake.eatApple_spec (s.eatApple .red).1 .red st1
  rw [c1] at t2 c2
  simp only [show ¬(3 ≤ 1) from by decide, if_false] at t2 c2
  simp only [show ((⟨some .red, 1⟩ : ComboStreak).color = some AppleColor.red) from rfl,
    if_pos] at t2 c2
  obtain ⟨t3, c3, _st3⟩ := Snake.eatApple_spec ((s.eatApple .red).1.eatApple .red).1 .red st2
  rw [c2] at t3 c3
  obtain ⟨t4, c4, _st4⟩ :=
    Snake.eatApple_spec ((s.eatApple .red).1.eatApple .red).1 .green st2
  rw [c2] at t4 c4
  refine ⟨?_, ?_, ?_, ?_, ?_, ?_⟩
  · rw [t1]; decide
  · rw [t2]; norm_num
  · rw [t3]; norm_num
  · rw [c3]; norm_num
  · rw [t4]; decide
  · rw [c4]; decide

/-- A freshly spawned snake, for concrete witnesses. -/
def freshSnake : Snake :=
  ⟨1, .alive, [mkSeg 5 7, mkSeg 4 7, mkSeg 3 7], .right, none, 15, 2, 1, 0, [], ⟨none, 0⟩⟩

theorem c5_combo_streak_witness :
    freshSnake.state = .alive ∧ freshSnake.combo.color ≠ some .red ∧
    ((freshSnake.eatApple .red).2.1 = false ∧
     ((freshSnake.eatApple .red).1.eatApple .red).2.1 = false ∧
     (((freshSnake.eatApple .red).1.eatApple .red).1.eatApple .red).2.1 = true ∧
     (((freshSnake.eatApple .red).1.eatApple .red).1.eatApple .red).1.combo
       = ⟨some .red, 0⟩ ∧
     (((freshSnake.eatApple .red).1.eatApple .red).1.eatApple .green).2.1 = false ∧
     (((freshSnake.eatApple .red).1.eatApple .red).1.eatApple .green).1.combo
       = ⟨some .green, 1⟩) :=
  ⟨rfl, by decide, c5_combo_streak freshSnake rfl (by decide)⟩

/-! ## C10: consuming an apple that is not in the live set -/

/-- C10: `consumeApple` with an apple whose id is not in the live map
returns `false` and changes nothing — the apple set, the snake (so its
growth and combo streak), the shed list and the `onAppleConsumed`
notifications are all untouched. -/
theorem c10_consume_missing_noop (m : AppleManager) (apple : Apple) (s : Snake)
    (h : ∀ a ∈ m.apples, a.id ≠ apple.id) :
    m.consumeApple apple s = (m, s, false, [], []) := by
  have hany : m.apples.any (fun a => a.id == apple.id) = false := by
    rw [List.any_eq_false]
    intro a ha
    simp [h a ha]
  simp [AppleManager.consumeApple, hany]

def appleOne : Apple :=
  ⟨1, .red, ⟨0, 0⟩, .active, 0⟩

def appleTwo : Apple :=
  ⟨2, .green, ⟨3, 3⟩, .active, 0⟩

def oneAppleManager : AppleManager :=
  ⟨[appleOne], 2, 15, []⟩

theorem c10_consume_missing_noop_witness :
    (∀ a ∈ oneAppleManager.apples, a.id ≠ appleTwo.id) ∧
    oneAppleManager.consumeApple appleTwo freshSnake
      = (oneAppleManager, freshSnake, false, [], []) :=
  ⟨by decide, c10_consume_missing_noop oneAppleManager appleTwo freshSnake (by decide)⟩

/-! ## C7: the apple-minimum maintenance pass only adds apples -/

theorem spawnRandomApple_apples (m : AppleManager) (r : SpawnRand) (now : ℚ) :
    ∃ tail, (m.spawnRandomApple r now).1.apples = m.apples ++ tail := by
  cases h : m.findEmptyPosition r.attempts r.fallbackIdx with
  | none => exact ⟨[], by simp [AppleManager.spawnRandomApple, h]⟩
  | some pos =>
    exact ⟨[Apple.new m.nextAppleId r.color pos now],
      by simp [AppleManager.spawnRandomApple, h]⟩

theorem spawnFold_apples (rands : List SpawnRand) (now : ℚ) :
    ∀ (l : List Nat) (m : AppleManager),
      ∃ tail,
        (l.foldl (fun acc i => (acc.spawnRandomApple (rands.getD i default) now).1) m).apples
          = m.apples ++ tail := by
  intro l
  induction l with
  | nil => exact fun m => ⟨[], (List.append_nil _).symm⟩
  | cons i t ih =>
    intro m
    obtain ⟨t2, h2⟩ := ih (m.spawnRandomApple (rands.getD i default) now).1
    obtain ⟨t1, h1⟩ := spawnRandomApple_apples m (rands.getD i default) now
    refine ⟨t1 ++ t2, ?_⟩
    rw [List.foldl_cons, h2, h1, List.append_assoc]

/-- C7: the per-tick maintenance pass does nothing at all when the
active apple count is at or above the minimum (so a rain surplus is
never trimmed), and in every case it only appends newly spawned apples
to the live set — it never removes one. -/
theorem c7_maintenance_only_spawns (m : AppleManager) (rands : List SpawnRand) (now : ℚ) :
    (MIN_APPLES ≤ m.getActiveAppleCount → m.maintainMinimumApples rands now = m) ∧
    (∃ spawned, (m.maintainMinimumApples rands now).apples = m.apples ++ spawned) := by
  constructor
  · intro h
    simp only [AppleManager.maintainMinimumApples]
    rw [if_neg (by omega)]
  · simp only [AppleManager.maintainMinimumApples]
    by_cases h : m.getActiveAppleCount < MIN_APPLES
    · rw [if_pos h]
      exact spawnFold_apples rands now _ m
    · rw [if_neg h]
      exact ⟨[], (List.append_nil _).symm⟩

/-- Five live apples (at the configured minimum), e.g. right after a
consumption brought a rain surplus back down to the floor. -/
def fiveAppleManager : AppleManager :=
  ⟨[⟨1, .red, ⟨0, 0⟩, .active, 0⟩, ⟨2, .red, ⟨0, 1⟩, .active, 0⟩,
    ⟨3, .red, ⟨0, 2⟩, .active, 0⟩, ⟨4, .red, ⟨0, 3⟩, .active, 0⟩,
    ⟨5, .red, ⟨0, 4⟩, .spawning, 0⟩], 6, 15, []⟩

theorem c7_maintenance_only_spawns_witness :
    MIN_APPLES ≤ fiveAppleManager.getActiveAppleCount ∧
    fiveAppleManager.maintainMinimumApples [] 0 = fiveAppleManager ∧
    (∃ spawned, (fiveAppleManager.maintainMinimumApples [] 0).apples
       = fiveAppleManager.apples ++ spawned) :=
  ⟨by decide, (c7_maintenance_only_spawns fiveAppleManager [] 0).1 (by decide),
   (c7_maintenance_only_spawns fiveAppleManager [] 0).2⟩

/-! ## C9: converting gray blocks are not solid -/

/-- C9: only `active` blocks are solid.  `hasBlockAt` finds exactly the
active blocks (so `converting` ones are invisible to it), the occupied
positions reported for apple spawning are exactly the active blocks'
tiles, and the orchestrator's collision pass does not kill a snake
whose head stands only on `converting` blocks. -/
theorem c9_converting_blocks_not_solid :
    (∀ (mgr : GrayBlockManager) (pos : Position),
       mgr.hasBlockAt pos = true
         ↔ ∃ b ∈ mgr.blocks, b.state = .active ∧ b.position = pos) ∧
    (∀ (mgr : GrayBlockManager) (pos : Position),
       pos ∈ mgr.getOccupiedPositions
         ↔ ∃ b ∈ mgr.blocks, b.state = .active ∧ b.position = pos) ∧
    (∀ (g : GameScreen) (i : Nat) (snake : Snake),
       g.snakes.get? i = some snake →
       snake.checkSelfCollision = false →
       (∀ other ∈ g.snakes, snake.checkCollisionWithSnake other = false) →
       (∀ b ∈ g.grayBlockManager.blocks, b.position = snake.getHead → b.state = .converting) →
       g.checkSnakeCollisionsAt i = g) := by
  have hblock : ∀ (mgr : GrayBlockManager) (pos : Position),
      mgr.hasBlockAt pos = true
        ↔ ∃ b ∈ mgr.blocks, b.state = .active ∧ b.position = pos := by
    intro mgr pos
    simp [GrayBlockManager.hasBlockAt, GrayBlockManager.getBlockAt,
      List.find?_isSome, GrayBlock.isActive, GrayBlock.isAt]
  refine ⟨hblock, ?_, ?_⟩
  · intro mgr pos
    simp only [GrayBlockManager.getOccupiedPositions, List.mem_map, List.mem_filter]
    constructor
    · rintro ⟨b, ⟨hb, hact⟩, hpos⟩
      exact ⟨b, hb, by simpa [GrayBlock.isActive] using hact, hpos⟩
    · rintro ⟨b, hb, hact, hpos⟩
      exact ⟨b, ⟨hb, by simp [GrayBlock.isActive, hact]⟩, hpos⟩
  · intro g i snake hget hself hothers hconv
    have hno : g.grayBlockManager.hasBlockAt snake.getHead = false := by
      rw [← Bool.not_eq_true, hblock]
      rintro ⟨b, hb, hact, hpos⟩
      have := hconv b hb hpos
      rw [this] at hact
      exact absurd hact (by decide)
    have hany : (g.snakes.any (fun other =>
        !(other.playerId == snake.playerId) && snake.checkCollisionWithSnake other))
          = false := by
      rw [List.any_eq_false]
      intro other hother
      simp [hothers other hother]
    unfold GameScreen.checkSnakeCollisionsAt
    rw [hget]
    simp [hself, hany, hno]

/-- A lone snake whose head tile holds only a `converting` block. -/
def convertingBlockScreen : GameScreen :=
  ⟨15, 2, [freshSnake],
   ⟨[], 1, 15, []⟩, ⟨[⟨1, ⟨5, 7⟩, .converting, 100⟩], 2⟩, ⟨[], 1, 15⟩, ⟨[]⟩,
   [(1, 0)], false, 0, 0, [], []⟩

theorem c9_converting_blocks_not_solid_witness :
    convertingBlockScreen.snakes.get? 0 = some freshSnake ∧
    freshSnake.checkSelfCollision = false ∧
    (∀ other ∈ convertingBlockScreen.snakes,
       freshSnake.checkCollisionWithSnake other = false) ∧
    (∀ b ∈ convertingBlockScreen.grayBlockManager.blocks,
       b.position = freshSnake.getHead → b.state = .converting) ∧
    convertingBlockScreen.checkSnakeCollisionsAt 0 = convertingBlockScreen :=
  ⟨rfl, by decide, by decide, by with_unfolding_all decide,
   c9_converting_blocks_not_solid.2.2 convertingBlockScreen 0 freshSnake rfl
     (by decide) (by decide) (by with_unfolding_all decide)⟩

/-! ## C1: tick ordering for simultaneous head-to-head collisions

The orchestrator's snake loop is strictly sequential: each snake's
queued direction, movement, collision tests and death finalization all
complete before the next snake is touched.  In the scenario below the
two snakes face each other two tiles apart, so on this tick both heads
move onto the same tile (6,7): snake 1 is processed first, passes its
collision tests (snake 2 has not moved yet), and survives; snake 2
then moves onto (6,7), collides with snake 1's already-moved body and
is the only one killed. -/

set_option maxRecDepth 100000

def snakeEast : Snake :=
  ⟨1, .alive, [mkSeg 5 7, mkSeg 4 7, mkSeg 3 7], .right, none, 15, 2, 1, 0, [], ⟨none, 0⟩⟩

def snakeWest : Snake :=
  ⟨2, .alive, [mkSeg 7 7, mkSeg 8 7, mkSeg 9 7], .left, none, 15, 2, 1, 0, [], ⟨none, 0⟩⟩

def fiveApplesAway : List Apple :=
  [⟨1, .red, ⟨0, 0⟩, .active, 0⟩, ⟨2, .red, ⟨0, 1⟩, .active, 0⟩,
   ⟨3, .red, ⟨0, 2⟩, .active, 0⟩, ⟨4, .red, ⟨0, 3⟩, .active, 0⟩,
   ⟨5, .red, ⟨0, 4⟩, .active, 0⟩]

/-- Two snakes heading at each other with both heads about to enter
tile (6,7) on the next move tick. -/
def headOnScreen : GameScreen :=
  ⟨15, 2, [snakeEast, snakeWest],
   ⟨fiveApplesAway, 6, 15, []⟩, ⟨[], 1⟩, ⟨[], 1, 15⟩, ⟨[]⟩,
   [(1, 0), (2, 0)], false, 0, 0, [], []⟩

/-- C1 counterexample: in this tick both snakes move head-to-head onto
the same tile (6,7), yet after `GameScreen.update` snake 1 is still
alive — the two are NOT both resolved as dead, because movements and
collision tests are interleaved per snake rather than all movements
completing before any collision test. -/
theorem c1_counterexample :
    (snakeEast.update 500 500).2 = true ∧
    (snakeWest.update 500 500).2 = true ∧
    (snakeEast.update 500 500).1.getHead = ⟨6, 7⟩ ∧
    (snakeWest.update 500 500).1.getHead = ⟨6, 7⟩ ∧
    ¬(∀ s ∈ (headOnScreen.update 500 500 default).snakes, s.state ≠ SnakeState.alive) := by
  with_unfolding_all decide

/-- C1 amended: the tick processes snakes sequentially — snake 1
moves, is tested and finalized before snake 2 is touched.  In the
same-tile head-to-head, snake 1 survives, snake 2 alone is killed (its
moved body seeding the gray blocks and its survival time recorded),
and the match does not end. -/
theorem c1_sequential_tick :
    (headOnScreen.update 500 500 default).snakes.map (fun s => s.state)
      = [SnakeState.alive, SnakeState.spectating] ∧
    (headOnScreen.update 500 500 default).grayBlockManager.blocks.map
        (fun b => (b.position, b.state))
      = [(⟨6, 7⟩, .active), (⟨7, 7⟩, .active), (⟨8, 7⟩, .active)] ∧
    mapGet 2 (headOnScreen.update 500 500 default).snakeDeathTimes = some 500 ∧
    mapGet 1 (headOnScreen.update 500 500 default).snakeDeathTimes = none ∧
    (headOnScreen.update 500 500 default).gameOverEvents = [] := by
  with_unfolding_all decide

/-! ## C8: the terminal event fires exactly once

No phase of a tick touches `isGameOver` or `gameOverEvents` except the
final `checkGameOver`, and a tick on a finished game is a no-op. -/

theorem killSnakeAt_isGameOver (g : GameScreen) (i : Nat) :
    (g.killSnakeAt i).isGameOver = g.isGameOver := by
  unfold GameScreen.killSnakeAt
  cases g.snakes.get? i <;> rfl

theorem killSnakeAt_gameOverEvents (g : GameScreen) (i : Nat) :
    (g.killSnakeAt i).gameOverEvents = g.gameOverEvents := by
  unfold GameScreen.killSnakeAt
  cases g.snakes.get? i <;> rfl

theorem killSnakeAt_scores (g : GameScreen) (i : Nat) :
    (g.killSnakeAt i).scores = g.scores := by
  unfold GameScreen.killSnakeAt
  cases g.snakes.get? i <;> rfl

theorem checkSnakeCollisionsAt_isGameOver (g : GameScreen) (i : Nat) :
    (g.checkSnakeCollisionsAt i).isGameOver = g.isGameOver := by
  unfold GameScreen.checkSnakeCollisionsAt
  cases g.snakes.get? i with
  | none => rfl
  | some snake =>
    simp only []
    split
    · exact killSnakeAt_isGameOver g i
    · split
      · exact killSnakeAt_isGameOver g i
      · split
        · exact killSnakeAt_isGameOver g i
        · rfl

theorem checkSnakeCollisionsAt_gameOverEvents (g : GameScreen) (i : Nat) :
    (g.checkSnakeCollisionsAt i).gameOverEvents = g.gameOverEvents := by
  unfold GameScreen.checkSnakeCollisionsAt
  cases g.snakes.get? i with
  | none => rfl
  | some snake =>
    simp only []
    split
    · exact killSnakeAt_gameOverEvents g i
    · split
      · exact killSnakeAt_gameOverEvents g i
      · split
        · exact killSnakeAt_gameOverEvents g i
        · rfl

theorem checkSnakeCollisionsAt_scores (g : GameScreen) (i : Nat) :
    (g.checkSnakeCollisionsAt i).scores = g.scores := by
  unfold GameScreen.checkSnakeCollisionsAt
  cases g.snakes.get? i with
  | none => rfl
  | some snake =>
    simp only []
    split
    · exact killSnakeAt_scores g i
    · split
      · exact killSnakeAt_scores g i
      · split
        · exact killSnakeAt_scores g i
        · rfl

theorem applyComboEffect_isGameOver (g : GameScreen) (color : AppleColor) (i : Nat)
    (now : ℚ) (rand : TickRand) :
    (g.applyComboEffect color i now rand).isGameOver = g.isGameOver := by
  unfold GameScreen.applyComboEffect
  cases g.snakes.get? i with
  | none => rfl
  | some snake => cases color <;> rfl

theorem applyComboEffect_gameOverEvents (g : GameScreen) (color : AppleColor) (i : Nat)
    (now : ℚ) (rand : TickRand) :
    (g.applyComboEffect color i now rand).gameOverEvents = g.gameOverEvents := by
  unfold GameScreen.applyComboEffect
  cases g.snakes.get? i with
  | none => rfl
  | some snake => cases color <;> rfl

theorem applyComboEffect_scores (g : GameScreen) (color : AppleColor) (i : Nat)
    (now : ℚ) (rand : TickRand) :
    (g.applyComboEffect color i now rand).scores = g.scores := by
  unfold GameScreen.applyComboEffect
  cases g.snakes.get? i with
  | none => rfl
  | some snake => cases color <;> rfl

theorem snakeStep_isGameOver (g : GameScreen) (dt now : ℚ) (rand : TickRand) (i : Nat) :
    (g.snakeStep dt now rand i).isGameOver = g.isGameOver := by
  unfold GameScreen.snakeStep
  cases hget : g.snakes.get? i with
  | none => rfl
  | some snake =>
    simp only []
    split
    · rfl
    · split
      · rfl
      · split
        · simp [checkSnakeCollisionsAt_isGameOver, GameScreen.setSnakeAt]
        · split <;>
            simp [checkSnakeCollisionsAt_isGameOver, applyComboEffect_isGameOver,
              GameScreen.setSnakeAt]

theorem snakeStep_gameOverEvents (g : GameScreen) (dt now : ℚ) (rand : TickRand)
    (i : Nat) :
    (g.snakeStep dt now rand i).gameOverEvents = g.gameOverEvents := by
  unfold GameScreen.snakeStep
  cases hget : g.snakes.get? i with
  | none => rfl
  | some snake =>
    simp only []
    split
    · rfl
    · split
      · rfl
      · split
        · simp [checkSnakeCollisionsAt_gameOverEvents, GameScreen.setSnakeAt]
        · split <;>
            simp [checkSnakeCollisionsAt_gameOverEvents, applyComboEffect_gameOverEvents,
              GameScreen.setSnakeAt]

theorem snakeLoop_isGameOver (dt now : ℚ) (rand : TickRand) :
    ∀ (n i : Nat) (g : GameScreen),
      (GameScreen.snakeLoop dt now rand g i n).isGameOver = g.isGameOver := by
  intro n
  induction n with
  | zero => exact fun i g => rfl
  | succ n ih =>
    intro i g
    exact (ih (i + 1) (g.snakeStep dt now rand i)).trans
      (snakeStep_isGameOver g dt now rand i)

theorem snakeLoop_gameOverEvents (dt now : ℚ) (rand : TickRand) :
    ∀ (n i : Nat) (g : GameScreen),
      (GameScreen.snakeLoop dt now rand g i n).gameOverEvents = g.gameOverEvents := by
  intro n
  induction n with
  | zero => exact fun i g => rfl
  | succ n ih =>
    intro i g
    exact (ih (i + 1) (g.snakeStep dt now rand i)).trans
      (snakeStep_gameOverEvents g dt now rand i)

theorem convertedFold_preserves (now : ℚ) (colors : List AppleColor) :
    ∀ (converted : List GrayBlock) (st : GameScreen × Nat),
      (converted.foldl (GameScreen.convertedStep now colors) st).1.isGameOver
          = st.1.isGameOver ∧
      (converted.foldl (GameScreen.convertedStep now colors) st).1.gameOverEvents
          = st.1.gameOverEvents := by
  intro converted
  induction converted with
  | nil => exact fun st => ⟨rfl, rfl⟩
  | cons b t ih =>
    intro st
    obtain ⟨h1, h2⟩ := ih (GameScreen.convertedStep now colors st b)
    exact ⟨h1.trans rfl, h2.trans rfl⟩

theorem processConversions_preserves (g : GameScreen) (converted : List GrayBlock)
    (now : ℚ) (colors : List AppleColor) (cIdx : Nat) :
    (g.processConversions converted now colors cIdx).1.isGameOver = g.isGameOver ∧
    (g.processConversions converted now colors cIdx).1.gameOverEvents
      = g.gameOverEvents := by
  unfold GameScreen.processConversions
  exact convertedFold_preserves now colors converted (g, cIdx)

theorem projectileStep_preserves (dt now : ℚ) (colors : List AppleColor)
    (st : GameScreen × List Nat × Nat) (proj : Projectile) :
    (GameScreen.projectileStep dt now colors st proj).1.isGameOver = st.1.isGameOver ∧
    (GameScreen.projectileStep dt now colors st proj).1.gameOverEvents
      = st.1.gameOverEvents := by
  unfold GameScreen.projectileStep
  dsimp only []
  split
  · exact ⟨rfl, rfl⟩
  · split
    · exact ⟨rfl, rfl⟩
    · split
      · exact ⟨rfl, rfl⟩
      · exact ⟨((processConversions_preserves _ _ _ _ _).1).trans rfl,
          ((processConversions_preserves _ _ _ _ _).2).trans rfl⟩

theorem projectileFold_preserves (dt now : ℚ) (colors : List AppleColor) :
    ∀ (snapshot : List Projectile) (st : GameScreen × List Nat × Nat),
      (snapshot.foldl (GameScreen.projectileStep dt now colors) st).1.isGameOver
          = st.1.isGameOver ∧
      (snapshot.foldl (GameScreen.projectileStep dt now colors) st).1.gameOverEvents
          = st.1.gameOverEvents := by
  intro snapshot
  induction snapshot with
  | nil => exact fun st => ⟨rfl, rfl⟩
  | cons p t ih =>
    intro st
    obtain ⟨h1, h2⟩ := ih (GameScreen.projectileStep dt now colors st p)
    obtain ⟨h3, h4⟩ := projectileStep_preserves dt now colors st p
    exact ⟨h1.trans h3, h2.trans h4⟩

theorem projectilePhase_preserves (g : GameScreen) (dt now : ℚ)
    (colors : List AppleColor) :
    (g.projectilePhase dt now colors).isGameOver = g.isGameOver ∧
    (g.projectilePhase dt now colors).gameOverEvents = g.gameOverEvents := by
  unfold GameScreen.projectilePhase
  dsimp only []
  obtain ⟨h1, h2⟩ :=
    projectileFold_preserves dt now colors g.projectileManager.projectiles (g, [], 0)
  exact ⟨h1, h2⟩

theorem runPhases_preserves (g : GameScreen) (dt now : ℚ) (rand : TickRand) :
    (g.runPhases dt now rand).isGameOver = g.isGameOver ∧
    (g.runPhases dt now rand).gameOverEvents = g.gameOverEvents := by
  unfold GameScreen.runPhases
  dsimp only []
  obtain ⟨p1, p2⟩ := projectilePhase_preserves _ dt now rand.convertColors
  refine ⟨p1.trans ?_, p2.trans ?_⟩
  · exact snakeLoop_isGameOver dt now rand _ 0 _
  · exact snakeLoop_gameOverEvents dt now rand _ 0 _

theorem checkGameOver_spec (g : GameScreen) :
    ((g.snakes.filter (fun s => s.isAlive)).length = 0 →
       g.checkGameOver.isGameOver = true ∧
       g.checkGameOver.gameOverEvents = g.gameOverEvents ++ [g.checkGameOver.scores]) ∧
    (¬(g.snakes.filter (fun s => s.isAlive)).length = 0 →
       g.checkGameOver = g) := by
  unfold GameScreen.checkGameOver
  dsimp only []
  constructor
  · intro h
    rw [if_pos h]
    exact ⟨rfl, rfl⟩
  · intro h
    rw [if_neg h]

/-- C8: the terminal transition happens at most once per tick and at
most once per match.  A tick from the terminal state is a complete
no-op; a tick from the running state either transitions to `over` and
appends exactly one terminal score event, or stays running and appends
none — never one event per dead snake. -/
theorem c8_single_terminal_event (g : GameScreen) (dt now : ℚ) (rand : TickRand) :
    (g.isGameOver = true → g.update dt now rand = g) ∧
    (g.isGameOver = false →
       ((g.update dt now rand).isGameOver = true ∧
        (g.update dt now rand).gameOverEvents
          = g.gameOverEvents ++ [(g.update dt now rand).scores]) ∨
       ((g.update dt now rand).isGameOver = false ∧
        (g.update dt now rand).gameOverEvents = g.gameOverEvents)) := by
  constructor
  · intro h
    unfold GameScreen.update
    rw [if_pos h]
  · intro h
    unfold GameScreen.update
    rw [if_neg (by simp [h])]
    by_cases halive :
        ((g.runPhases dt now rand).snakes.filter (fun s => s.isAlive)).length = 0
    · obtain ⟨h1, h2⟩ := (checkGameOver_spec (g.runPhases dt now rand)).1 halive
      rw [(runPhases_preserves g dt now rand).2] at h2
      exact Or.inl ⟨h1, h2⟩
    · have he := (checkGameOver_spec (g.runPhases dt now rand)).2 halive
      rw [he]
      exact Or.inr ⟨(runPhases_preserves g dt now rand).1.trans h,
        (runPhases_preserves g dt now rand).2⟩

/-- A finished match (terminal state already reached, one terminal
event already emitted). -/
def gameOverScreen : GameScreen :=
  ⟨15, 2, [deadSnake], ⟨[], 1, 15, []⟩, ⟨[], 1⟩, ⟨[], 1, 15⟩, ⟨[]⟩,
   [(1, 0)], true, 0, 500, [(1, 500)], [[(1, 0)]]⟩

/-- A running match in which every snake is already non-alive, about
to take its game-over tick. -/
def allDeadScreen : GameScreen :=
  ⟨15, 2, [deadSnake], ⟨fiveApplesAway, 6, 15, []⟩, ⟨[], 1⟩, ⟨[], 1, 15⟩, ⟨[]⟩,
   [(1, 20)], false, 0, 500, [(1, 500)], []⟩

theorem c8_single_terminal_event_witness :
    (gameOverScreen.isGameOver = true ∧
     gameOverScreen.update 16 516 default = gameOverScreen) ∧
    (allDeadScreen.isGameOver = false ∧
     (((allDeadScreen.update 16 516 default).isGameOver = true ∧
       (allDeadScreen.update 16 516 default).gameOverEvents
         = allDeadScreen.gameOverEvents ++ [(allDeadScreen.update 16 516 default).scores]) ∨
      ((allDeadScreen.update 16 516 default).isGameOver = false ∧
       (allDeadScreen.update 16 516 default).gameOverEvents
         = allDeadScreen.gameOverEvents))) :=
  ⟨⟨rfl, (c8_single_terminal_event gameOverScreen 16 516 default).1 rfl⟩,
   ⟨rfl, (c8_single_terminal_event allDeadScreen 16 516 default).2 rfl⟩⟩

/-! ## C2: final scoring -/

theorem Snake.eatApple_playerId (s : Snake) (c : AppleColor) :
    (s.eatApple c).1.playerId = s.playerId := by
  unfold Snake.eatApple
  split
  · rfl
  · dsimp only []
    split <;> split <;> exact Snake.grow_playerId _

theorem consumeApple_playerId (m : AppleManager) (a : Apple) (s : Snake) :
    (m.consumeApple a s).2.1.playerId = s.playerId := by
  unfold AppleManager.consumeApple
  split
  · rfl
  · exact Snake.eatApple_playerId s a.color

theorem scoreFold_get_notin (B : Nat → Int) :
    ∀ (snakes : List Snake) (scores : List (Nat × Int)) (pid : Nat),
      pid ∉ snakes.map (fun s => s.playerId) →
      mapGet pid (snakes.foldl (fun sc sn =>
          mapSet sn.playerId ((mapGet sn.playerId sc).getD 0 + B sn.playerId) sc) scores)
        = mapGet pid scores := by
  intro snakes
  induction snakes with
  | nil => intro scores pid _; rfl
  | cons s t ih =>
    intro scores pid h
    rw [List.map_cons, List.mem_cons] at h
    push_neg at h
    rw [List.foldl_cons, ih _ pid h.2, mapGet_mapSet_ne h.1]

theorem scoreFold_get (B : Nat → Int) :
    ∀ (snakes : List Snake) (scores : List (Nat × Int)) (pid : Nat),
      (snakes.map (fun s => s.playerId)).Nodup →
      pid ∈ snakes.map (fun s => s.playerId) →
      mapGet pid (snakes.foldl (fun sc sn =>
          mapSet sn.playerId ((mapGet sn.playerId sc).getD 0 + B sn.playerId) sc) scores)
        = some ((mapGet pid scores).getD 0 + B pid) := by
  intro snakes
  induction snakes with
  | nil => intro scores pid _ h; simp at h
  | cons s t ih =>
    intro scores pid hnd hmem
    rw [List.map_cons] at hnd hmem
    rw [List.foldl_cons]
    rcases List.mem_cons.mp hmem with he | hm
    · have hnotin : s.playerId ∉ t.map (fun s => s.playerId) :=
        (List.nodup_cons.mp hnd).1
      rw [scoreFold_get_notin B t _ pid (he ▸ hnotin), he, mapGet_mapSet_same]
    · have hne : pid ≠ s.playerId := by
        intro he
        exact (List.nodup_cons.mp hnd).1 (he ▸ hm)
      rw [ih _ pid (List.nodup_cons.mp hnd).2 hm, mapGet_mapSet_ne hne]

/-- C2: final score composition.  At match end each player's score is
their accumulated in-game score plus `finalBonus`: 1 point per full
second survived plus 100 for matching the maximum survival time when
more than one snake exists.  During the game, a tick in which snake
`i` moves onto an apple adds exactly 10 points to that snake's score,
plus exactly 50 more when the consumption reports a combo trigger (the
base 10-per-apple and 50-per-trigger of the claim). -/
theorem c2_final_scoring :
    (∀ (g : GameScreen) (pid : Nat),
       (g.snakes.map (fun s => s.playerId)).Nodup →
       pid ∈ g.snakes.map (fun s => s.playerId) →
       mapGet pid g.calculateFinalScores.scores
         = some ((mapGet pid g.scores).getD 0 + g.finalBonus pid)) ∧
    (∀ (g : GameScreen) (dt now : ℚ) (rand : TickRand) (i : Nat) (s s1 : Snake)
       (apple : Apple),
       g.snakes.get? i = some s →
       s.isAlive = true →
       s.update dt now = (s1, true) →
       g.appleManager.checkCollision s1 = some apple →
       mapGet s1.playerId (g.snakeStep dt now rand i).scores
         = some ((mapGet s1.playerId g.scores).getD 0 + 10
             + (if (g.appleManager.consumeApple apple s1).2.2.1 then 50 else 0))) := by
  constructor
  · intro g pid hnd hmem
    unfold GameScreen.calculateFinalScores
    dsimp only []
    exact scoreFold_get g.finalBonus g.snakes g.scores pid hnd hmem
  · intro g dt now rand i s s1 apple hget halive hupd happle
    have hpid := consumeApple_playerId g.appleManager apple s1
    unfold GameScreen.snakeStep
    rw [hget]
    dsimp only [GameScreen.setSnakeAt]
    rw [if_neg (by simp [halive]), hupd]
    dsimp only []
    rw [if_neg (by simp)]
    rw [happle]
    dsimp only []
    cases htr : (g.appleManager.consumeApple apple s1).2.2.1 with
    | true =>
      rw [if_pos rfl, checkSnakeCollisionsAt_scores, applyComboEffect_scores, hpid,
        mapGet_mapSet_same, mapGet_mapSet_same]
      simp
    | false =>
      rw [if_neg (by decide), checkSnakeCollisionsAt_scores, hpid, mapGet_mapSet_same]
      simp

/-- A finished two-player match with distinct survival times, for the
final-score witness. -/
def scoredScreen : GameScreen :=
  ⟨15, 2, [deadSnake, { deadSnake with playerId := 2 }],
   ⟨[], 1, 15, []⟩, ⟨[], 1⟩, ⟨[], 1, 15⟩, ⟨[]⟩,
   [(1, 30), (2, 10)], false, 0, 7500, [(1, 5000), (2, 7500)], []⟩

/-- A lone snake one move away from an apple on tile (6,7). -/
def appleEatScreen : GameScreen :=
  ⟨15, 2, [snakeEast],
   ⟨[⟨6, .red, ⟨6, 7⟩, .active, 0⟩], 7, 15, []⟩, ⟨[], 1⟩, ⟨[], 1, 15⟩, ⟨[]⟩,
   [(1, 0)], false, 0, 0, [], []⟩

theorem c2_final_scoring_witness :
    (mapGet 2 scoredScreen.calculateFinalScores.scores
       = some ((mapGet 2 scoredScreen.scores).getD 0 + scoredScreen.finalBonus 2)) ∧
    (mapGet (snakeEast.update 500 500).1.playerId
         (appleEatScreen.snakeStep 500 500 default 0).scores
       = some ((mapGet (snakeEast.update 500 500).1.playerId appleEatScreen.scores).getD 0
           + 10
           + (if (appleEatScreen.appleManager.consumeApple ⟨6, .red, ⟨6, 7⟩, .active, 0⟩
                   (snakeEast.update 500 500).1).2.2.1 then 50 else 0))) :=
  ⟨c2_final_scoring.1 scoredScreen 2 (by decide) (by decide),
   c2_final_scoring.2 appleEatScreen 500 500 default 0 snakeEast
     (snakeEast.update 500 500).1 ⟨6, .red, ⟨6, 7⟩, .active, 0⟩ rfl (by decide)
     (by with_unfolding_all decide) (by with_unfolding_all decide)⟩

/-! ## C3: projectile lifetime and removal

A projectile never wraps and moves one tile per 50 ms of accumulated
update time, so from spawn (accumulator 0) it leaves the `active`
state within `50 * boardSize ≤ 2500` ms of update time — the fixed
timeout bound — whether by `expired` (wall exit) or `hit` (block
collision); and the manager's update pass keeps only active
projectiles in the live set. -/

/-- The projectile's position is on the board. -/
def Projectile.inBounds (p : Projectile) : Prop :=
  0 ≤ p.position.x ∧ p.position.x < p.boardSize ∧
  0 ≤ p.position.y ∧ p.position.y < p.boardSize

instance (p : Projectile) : Decidable p.inBounds := by
  unfold Projectile.inBounds
  infer_instance

/-- Number of moves after which the projectile attempts to step off
the board in its facing direction. -/
def Projectile.exitSteps (p : Projectile) : Nat :=
  match p.direction with
  | .right => (p.boardSize - p.position.x).toNat
  | .left => (p.position.x + 1).toNat
  | .down => (p.boardSize - p.position.y).toNat
  | .up => (p.position.y + 1).toNat

/-- A projectile's whole life as the manager drives it: one
`Projectile.update` per tick. -/
def Projectile.runUpdates (p : Projectile) (dts : List ℚ) : Projectile :=
  dts.foldl (fun q dt => (q.update dt).1) p

theorem Projectile.exitSteps_pos (p : Projectile) (hin : p.inBounds) :
    1 ≤ p.exitSteps := by
  obtain ⟨hx0, hx1, hy0, hy1⟩ := hin
  unfold Projectile.exitSteps
  cases p.direction <;> simp <;> omega

theorem Projectile.exitSteps_le (p : Projectile) (hin : p.inBounds) :
    (p.exitSteps : Int) ≤ p.boardSize := by
  obtain ⟨hx0, hx1, hy0, hy1⟩ := hin
  unfold Projectile.exitSteps
  cases p.direction <;> simp <;> omega

theorem Projectile.move_true (p : Projectile) (hin : p.inBounds)
    (hok : (p.move).2 = true) :
    (p.move).1.inBounds ∧ p.exitSteps = (p.move).1.exitSteps + 1 ∧
    (p.move).1.state = p.state := by
  obtain ⟨hx0, hx1, hy0, hy1⟩ := hin
  unfold Projectile.move at hok ⊢
  dsimp only [] at hok ⊢
  split at hok
  · simp at hok
  · rename_i hcond
    push_neg at hcond
    obtain ⟨hc1, hc2, hc3, hc4⟩ := hcond
    rw [if_neg (by push_neg; exact ⟨hc1, hc2, hc3, hc4⟩)]
    refine ⟨⟨hc1, hc2, hc3, hc4⟩, ?_, rfl⟩
    unfold Projectile.exitSteps
    cases hd : p.direction <;>
      simp only [hd, Direction.delta] at hc1 hc2 hc3 hc4 ⊢ <;>
      omega

theorem Projectile.move_id (p : Projectile) : (p.move).1.id = p.id := by
  unfold Projectile.move
  dsimp only []
  split <;> rfl

theorem Projectile.steps_id :
    ∀ (fuel : Nat) (p : Projectile) (acc : ℚ) (moved : Bool),
      (Projectile.steps p acc moved fuel).1.id = p.id := by
  intro fuel
  induction fuel with
  | zero => intro p acc moved; rfl
  | succ fuel ih =>
    intro p acc moved
    unfold Projectile.steps
    dsimp only []
    split
    · split
      · exact (ih _ _ _).trans (Projectile.move_id p)
      · exact Projectile.move_id p
    · rfl

theorem Projectile.update_id (p : Projectile) (dt : ℚ) :
    (p.update dt).1.id = p.id := by
  unfold Projectile.update
  dsimp only []
  split
  · rfl
  · exact Projectile.steps_id _ _ _ _

/-- The move interval of a projectile is 50 ms. -/
theorem projectile_interval : (1000 : ℚ) / PROJECTILE_SPEED = 50 := by
  norm_num [PROJECTILE_SPEED]

/-- Catch-up loop invariant: with enough fuel, the loop either leaves
the active state or drains the accumulator below one interval while
the quantity `50 * exitSteps - acc` is conserved. -/
theorem Projectile.steps_spec :
    ∀ (fuel : Nat) (p : Projectile) (acc : ℚ) (moved : Bool),
      p.state = .active → p.inBounds → 0 ≤ acc → ⌊acc / 50⌋ < (fuel : Int) →
      (Projectile.steps p acc moved fuel).1.state ≠ .active ∨
      ((Projectile.steps p acc moved fuel).1.state = .active ∧
       (Projectile.steps p acc moved fuel).1.inBounds ∧
       0 ≤ (Projectile.steps p acc moved fuel).2.1 ∧
       (Projectile.steps p acc moved fuel).2.1 < 50 ∧
       50 * ((Projectile.steps p acc moved fuel).1.exitSteps : ℚ)
           - (Projectile.steps p acc moved fuel).2.1
         = 50 * (p.exitSteps : ℚ) - acc) := by
  intro fuel
  induction fuel with
  | zero =>
    intro p acc moved _ _ hacc hfuel
    exfalso
    have : (0 : Int) ≤ ⌊acc / 50⌋ := Int.floor_nonneg.mpr (by positivity)
    omega
  | succ fuel ih =>
    intro p acc moved hact hin hacc hfuel
    unfold Projectile.steps
    rw [projectile_interval]
    dsimp only []
    split
    · rename_i hge
      cases hok : (p.move).2 with
      | true =>
        obtain ⟨hin2, hes, hst⟩ := Projectile.move_true p hin hok
        rw [if_pos rfl]
        have hact2 : (p.move).1.state = .active := hst.trans hact
        have hacc2 : (0 : ℚ) ≤ acc - 50 := by linarith
        have hfloor : ⌊(acc - 50) / 50⌋ < (fuel : Int) := by
          have h1 : (acc - 50) / 50 = acc / 50 - 1 := by ring
          rw [h1, Int.floor_sub_one]
          push_cast at hfuel ⊢
          omega
        rcases ih (p.move).1 (acc - 50) true hact2 hin2 hacc2 hfloor with hl | hr
        · exact Or.inl hl
        · refine Or.inr ⟨hr.1, hr.2.1, hr.2.2.1, hr.2.2.2.1, ?_⟩
          rw [hr.2.2.2.2, hes]
          push_cast
          ring
      | false =>
        rw [if_neg (by simp)]
        exact Or.inl (by simp)
    · rename_i hlt
      push_neg at hlt
      exact Or.inr ⟨hact, hin, hacc, hlt, rfl⟩

theorem Projectile.update_not_active (p : Projectile) (dt : ℚ)
    (h : p.state ≠ .active) : (p.update dt).1 = p := by
  unfold Projectile.update
  rw [if_pos (by simp [Projectile.isActive, h])]

theorem Projectile.update_spec (p : Projectile) (dt : ℚ)
    (hact : p.state = .active) (hin : p.inBounds) (hacc : 0 ≤ p.moveAccumulator)
    (hdt : 0 ≤ dt) :
    (p.update dt).1.state ≠ .active ∨
    ((p.update dt).1.state = .active ∧ (p.update dt).1.inBounds ∧
     0 ≤ (p.update dt).1.moveAccumulator ∧ (p.update dt).1.moveAccumulator < 50 ∧
     50 * ((p.update dt).1.exitSteps : ℚ) - (p.update dt).1.moveAccumulator
       = 50 * (p.exitSteps : ℚ) - (p.moveAccumulator + dt)) := by
  unfold Projectile.update
  rw [if_neg (by simp [Projectile.isActive, hact])]
  dsimp only []
  rw [projectile_interval]
  have h0 : (0 : ℚ) ≤ p.moveAccumulator + dt := by linarith
  have hfl : ⌊(p.moveAccumulator + dt) / 50⌋
      < ((⌊(p.moveAccumulator + dt) / 50⌋.toNat + 1 : Nat) : Int) := by
    have hnn : (0 : Int) ≤ ⌊(p.moveAccumulator + dt) / 50⌋ :=
      Int.floor_nonneg.mpr (by positivity)
    push_cast
    omega
  rcases Projectile.steps_spec _ p (p.moveAccumulator + dt) false hact hin h0 hfl
    with hl | hr
  · exact Or.inl hl
  · exact Or.inr ⟨hr.1, hr.2.1, hr.2.2.1, hr.2.2.2.1, hr.2.2.2.2⟩

theorem Projectile.runUpdates_not_active :
    ∀ (dts : List ℚ) (p : Projectile), p.state ≠ .active → p.runUpdates dts = p := by
  intro dts
  induction dts with
  | nil => intro p _; rfl
  | cons d rest ih =>
    intro p h
    unfold Projectile.runUpdates at ih ⊢
    rw [List.foldl_cons, Projectile.update_not_active p d h]
    exact ih p h

/-- Across any nonempty sequence of nonnegative frame deltas, an
active, in-bounds projectile either leaves the active state or keeps
conserving (and draining) its time-to-exit budget. -/
theorem Projectile.runUpdates_spec :
    ∀ (dts : List ℚ) (p : Projectile),
      (∀ dt ∈ dts, 0 ≤ dt) →
      p.state = .active → p.inBounds → 0 ≤ p.moveAccumulator →
      (p.runUpdates dts).state = .active →
      (p.runUpdates dts).inBounds ∧
      50 * ((p.runUpdates dts).exitSteps : ℚ) - (p.runUpdates dts).moveAccumulator
        ≤ 50 * (p.exitSteps : ℚ) - p.moveAccumulator - dts.sum ∧
      (dts = [] ∨ (p.runUpdates dts).moveAccumulator < 50) := by
  intro dts
  induction dts with
  | nil =>
    intro p _ _ hin _ _
    refine ⟨hin, ?_, Or.inl rfl⟩
    show 50 * (p.exitSteps : ℚ) - p.moveAccumulator
        ≤ 50 * (p.exitSteps : ℚ) - p.moveAccumulator - ([] : List ℚ).sum
    simp
  | cons d rest ih =>
    intro p hdts hact hin hacc hfin
    have hd : (0 : ℚ) ≤ d := hdts d (by simp)
    have hrest : ∀ dt ∈ rest, (0 : ℚ) ≤ dt := fun dt h => hdts dt (by simp [h])
    have hrw : p.runUpdates (d :: rest) = ((p.update d).1).runUpdates rest := by
      unfold Projectile.runUpdates
      rw [List.foldl_cons]
    rcases Projectile.update_spec p d hact hin hacc hd with hl | hr
    · exfalso
      rw [hrw, Projectile.runUpdates_not_active rest _ hl] at hfin
      exact hl hfin
    · obtain ⟨hact1, hin1, hacc1, hlt1, heq1⟩ := hr
      rw [hrw] at hfin ⊢
      obtain ⟨hinf, hVf, hlast⟩ := ih (p.update d).1 hrest hact1 hin1 hacc1 hfin
      refine ⟨hinf, ?_, Or.inr ?_⟩
      · rw [heq1] at hVf
        rw [List.sum_cons]
        linarith
      · rcases hlast with hnil | hlt
        · rw [hnil]
          simpa [Projectile.runUpdates, hnil] using hlt1
        · exact hlt

/-! The manager phase never keeps a non-active projectile in the live
set: every projectile surviving `projectilePhase` is active. -/

theorem convertedFold_projectileManager (now : ℚ) (colors : List AppleColor) :
    ∀ (converted : List GrayBlock) (st : GameScreen × Nat),
      (converted.foldl (GameScreen.convertedStep now colors) st).1.projectileManager
        = st.1.projectileManager := by
  intro converted
  induction converted with
  | nil => intro st; rfl
  | cons b t ih =>
    intro st
    exact (ih (GameScreen.convertedStep now colors st b)).trans rfl

theorem processConversions_projectileManager (g : GameScreen)
    (converted : List GrayBlock) (now : ℚ) (colors : List AppleColor) (cIdx : Nat) :
    (g.processConversions converted now colors cIdx).1.projectileManager
      = g.projectileManager := by
  unfold GameScreen.processConversions
  exact convertedFold_projectileManager now colors converted (g, cIdx)

/-- `toRemove` only grows during one projectile step. -/
theorem projectileStep_toRemove_mono (dt now : ℚ) (colors : List AppleColor)
    (st : GameScreen × List Nat × Nat) (r : Projectile) :
    ∀ x ∈ st.2.1, x ∈ (GameScreen.projectileStep dt now colors st r).2.1 := by
  intro x hx
  unfold GameScreen.projectileStep
  dsimp only []
  split
  · exact List.mem_append_left _ hx
  · split
    · exact List.mem_append_left _ hx
    · split
      · exact hx
      · exact List.mem_append_left _ hx

/-- After one projectile step, every stored projectile either carries
the processed projectile's id and is removed-or-active, or is an
untouched member of the previous store. -/
theorem projectileStep_inv (dt now : ℚ) (colors : List AppleColor)
    (st : GameScreen × List Nat × Nat) (r : Projectile) :
    ∀ q ∈ (GameScreen.projectileStep dt now colors st r).1.projectileManager.projectiles,
      (q.id = r.id ∧
        (q.id ∈ (GameScreen.projectileStep dt now colors st r).2.1 ∨ q.isActive = true)) ∨
      (q.id ≠ r.id ∧ q ∈ st.1.projectileManager.projectiles) := by
  unfold GameScreen.projectileStep
  dsimp only []
  split
  · intro q hq
    by_cases hqr : q.id = r.id
    · exact Or.inl ⟨hqr, Or.inl (by simp [hqr])⟩
    · exact Or.inr ⟨hqr, hq⟩
  · rename_i hract
    have hpid : ((r.update dt).1).id = r.id := Projectile.update_id r dt
    split
    · intro q hq
      dsimp only [GameScreen.writeProjectile] at hq
      rw [List.mem_map] at hq
      obtain ⟨q0, hq0, hfq⟩ := hq
      by_cases h0 : (q0.id == ((r.update dt).1).id) = true
      · rw [if_pos h0] at hfq
        exact Or.inl ⟨hfq ▸ hpid, Or.inl (by simp [hfq ▸ hpid, ← hfq])⟩
      · rw [if_neg h0] at hfq
        refine Or.inr ⟨?_, hfq ▸ hq0⟩
        rw [← hfq]
        simp only [beq_iff_eq] at h0
        exact fun hc => h0 (hc.trans hpid.symm)
    · rename_i hpact
      split
      · intro q hq
        dsimp only [GameScreen.writeProjectile] at hq
        rw [List.mem_map] at hq
        obtain ⟨q0, hq0, hfq⟩ := hq
        by_cases h0 : (q0.id == ((r.update dt).1).id) = true
        · rw [if_pos h0] at hfq
          refine Or.inl ⟨hfq ▸ hpid, Or.inr ?_⟩
          rw [← hfq]
          simpa [Projectile.isActive] using hpact
        · rw [if_neg h0] at hfq
          refine Or.inr ⟨?_, hfq ▸ hq0⟩
          rw [← hfq]
          simp only [beq_iff_eq] at h0
          exact fun hc => h0 (hc.trans hpid.symm)
      · intro q hq
        rw [show
            (GameScreen.processConversions _ _ now colors st.2.2).1.projectileManager
              = _ from processConversions_projectileManager _ _ now colors _] at hq
        dsimp only [GameScreen.writeProjectile] at hq
        rw [List.mem_map] at hq
        obtain ⟨q1, hq1, hfq⟩ := hq
        rw [List.mem_map] at hq1
        obtain ⟨q0, hq0, hfq1⟩ := hq1
        by_cases h1 : (q1.id == ((r.update dt).1).hit.id) = true
        · rw [if_pos h1] at hfq
          refine Or.inl ⟨hfq ▸ hpid, Or.inl ?_⟩
          rw [← hfq]
          simp [Projectile.hit, hpid]
        · rw [if_neg h1] at hfq
          by_cases h0 : (q0.id == ((r.update dt).1).id) = true
          · exfalso
            rw [if_pos h0] at hfq1
            apply h1
            rw [← hfq1]
            simp [Projectile.hit]
          · rw [if_neg h0] at hfq1
            refine Or.inr ⟨?_, (hfq1.trans hfq) ▸ hq0⟩
            rw [← hfq, ← hfq1]
            simp only [beq_iff_eq] at h0
            exact fun hc => h0 (hc.trans hpid.symm)

theorem projectileFold_inv (dt now : ℚ) (colors : List AppleColor) :
    ∀ (rest : List Projectile) (st : GameScreen × List Nat × Nat),
      (∀ q ∈ st.1.projectileManager.projectiles,
         q.id ∉ rest.map (fun r => r.id) → q.id ∈ st.2.1 ∨ q.isActive = true) →
      ∀ q ∈ (rest.foldl (GameScreen.projectileStep dt now colors)
          st).1.projectileManager.projectiles,
        q.id ∈ (rest.foldl (GameScreen.projectileStep dt now colors) st).2.1
          ∨ q.isActive = true := by
  intro rest
  induction rest with
  | nil =>
    intro st h q hq
    exact h q hq (by simp)
  | cons r rest ih =>
    intro st h
    rw [List.foldl_cons]
    apply ih
    intro q hq hqid
    rcases projectileStep_inv dt now colors st r q hq with ⟨hqr, hrem⟩ | ⟨hqr, hq0⟩
    · rcases hrem with hm | hact
      · exact Or.inl hm
      · exact Or.inr hact
    · have : q.id ∉ (r :: rest).map (fun r => r.id) := by
        rw [List.map_cons, List.mem_cons]
        push_neg
        exact ⟨hqr, hqid⟩
      rcases h q hq0 this with hm | hact
      · exact Or.inl (projectileStep_toRemove_mono dt now colors st r q.id hm)
      · exact Or.inr hact

/-- Every projectile that survives the manager's update phase is
active: inactive (hit or expired) projectiles are purged from the
live set in the same pass. -/
theorem projectilePhase_all_active (g : GameScreen) (dt now : ℚ)
    (colors : List AppleColor) :
    ∀ q ∈ (g.projectilePhase dt now colors).projectileManager.projectiles,
      q.isActive = true := by
  intro q hq
  unfold GameScreen.projectilePhase at hq
  dsimp only [] at hq
  rw [List.mem_filter] at hq
  obtain ⟨hmem, hnot⟩ := hq
  rcases projectileFold_inv dt now colors g.projectileManager.projectiles (g, [], 0)
      (fun q hq hnid => absurd (List.mem_map.mpr ⟨q, hq, rfl⟩) hnid) q hmem
    with hrem | hact
  · exfalso
    have hc : (List.foldl (GameScreen.projectileStep dt now colors) (g, [], 0)
        g.projectileManager.projectiles).2.1.contains q.id = true := by
      simpa using hrem
    rw [hc] at hnot
    simp at hnot
  · exact hact

/-- C3: a fixed 2500 ms timeout bounds every projectile's active life,
and the live set never retains a non-active projectile.  From spawn
(accumulator 0, on-board, any of the three board sizes, which are all
at most 50), once the updates driving a projectile cover 2500 ms it
has left the active state — regardless of whether a block collision
(`hit`) removed it even earlier; and every projectile still in the
manager's set after its update pass is active, so expired and hit
projectiles are removed in the same pass. -/
theorem c3_projectile_timeout :
    (∀ (p : Projectile) (dts : List ℚ),
       p.state = .active → p.inBounds → p.moveAccumulator = 0 →
       p.boardSize ≤ 50 → (∀ dt ∈ dts, 0 ≤ dt) → 2500 ≤ dts.sum →
       (p.runUpdates dts).state ≠ .active) ∧
    (∀ (g : GameScreen) (dt now : ℚ) (colors : List AppleColor),
       ∀ q ∈ (g.projectilePhase dt now colors).projectileManager.projectiles,
         q.isActive = true) := by
  refine ⟨?_, projectilePhase_all_active⟩
  intro p dts hact hin hacc0 hbs hdts hsum hfin
  obtain ⟨hinf, hVf, hlast⟩ :=
    Projectile.runUpdates_spec dts p hdts hact hin (by rw [hacc0]) hfin
  have hes50 : ((p.exitSteps : ℚ)) ≤ 50 := by
    have h1 : (p.exitSteps : Int) ≤ 50 := le_trans (Projectile.exitSteps_le p hin) hbs
    exact_mod_cast h1
  have hesf : (1 : ℚ) ≤ ((p.runUpdates dts).exitSteps : ℚ) := by
    exact_mod_cast Projectile.exitSteps_pos _ hinf
  rcases hlast with hnil | hlt
  · rw [hnil] at hsum
    norm_num at hsum
  · rw [hacc0] at hVf
    linarith

/-- A projectile just spawned at the west edge of a 15-board, flying
east. -/
def flyingProjectile : Projectile :=
  ⟨1, 1, ⟨0, 7⟩, .right, 15, .active, 0, ⟨0, 7⟩, []⟩

def projectileScreen : GameScreen :=
  ⟨15, 2, [snakeEast], ⟨fiveApplesAway, 6, 15, []⟩, ⟨[], 1⟩,
   ⟨[flyingProjectile], 2, 15⟩, ⟨[]⟩, [(1, 0)], false, 0, 0, [], []⟩

theorem c3_projectile_timeout_witness :
    (flyingProjectile.runUpdates [2500]).state ≠ ProjectileState.active ∧
    ({ flyingProjectile with moveAccumulator := 10 }).isActive = true :=
  ⟨c3_projectile_timeout.1 flyingProjectile [2500] rfl (by decide) rfl (by decide)
     (by intro dt h; rw [List.mem_singleton] at h; rw [h]; with_unfolding_all decide)
     (by with_unfolding_all decide),
   c3_projectile_timeout.2 projectileScreen 10 10 []
     { flyingProjectile with moveAccumulator := 10 } (by with_unfolding_all decide)⟩

end VibeSnek
